import Mathlib

set_option maxHeartbeats 1000000

namespace Tennis

/-!
Shallow embedding of the entry-resolution core of the tennis entry-list
tracker: the week normalizer/clusterer and tournament canonicalizer
(`output/html_writer.py`), the player name matcher (`matching/name_matcher.py`),
the per-player deduplicator/reconciler and section promotion resolver
(`output/site_writer.py`), and the abbreviated-name expansion (`main.py`).

Unicode-dependent Python operations (`unicodedata.normalize('NFD')` mark
stripping, `unidecode`, case mapping beyond ASCII) are modelled by finite
character translation tables covering the characters occurring in the
repository's data tables; regular expressions are modelled by equivalent
explicit character-list parsers.
-/

/-- Python whitespace (`str.split`, `str.strip`, regex `\s`). -/
def isWs (c : Char) : Bool :=
  c == ' ' || c == '\t' || c == '\n' || c == '\r' || c == '\x0b' || c == '\x0c'

def isAsciiUpper (c : Char) : Bool := 'A' ≤ c && c ≤ 'Z'

def isAsciiLower (c : Char) : Bool := 'a' ≤ c && c ≤ 'z'

def isDigitChar (c : Char) : Bool := '0' ≤ c && c ≤ '9'

/-- Regex `\w` (ASCII fragment). -/
def isWordChar (c : Char) : Bool :=
  isAsciiUpper c || isAsciiLower c || isDigitChar c || c == '_'

/-- Translate a character through a finite table, identity off its domain. -/
def tr (table : List (Char × Char)) (c : Char) : Char :=
  match table.find? (fun p => p.1 == c) with
  | some p => p.2
  | none => c

/-- Latin letters with combining marks, as decomposed and stripped by
`unicodedata.normalize('NFD')` + mark removal in `_strip_accents`. -/
def accentPairs : List (Char × Char) :=
  [('á','a'),('à','a'),('â','a'),('ã','a'),
   ('é','e'),('è','e'),('ê','e'),
   ('í','i'),('ó','o'),('ô','o'),('õ','o'),('ö','o'),
   ('ú','u'),('ü','u'),('ñ','n'),('ç','c'),
   ('š','s'),('ž','z'),('č','c'),('ć','c'),
   ('Á','A'),('É','E'),('Í','I'),('Ó','O'),('Ú','U'),
   ('Ñ','N'),('Ç','C'),('Š','S'),('Ž','Z'),('Č','C'),('Ć','C')]

/-- `unidecode` additionally transliterates letters that NFD cannot decompose. -/
def unidecodePairs : List (Char × Char) :=
  accentPairs ++ [('đ','d'),('Đ','D'),('ł','l'),('Ł','L'),('ø','o'),('Ø','O')]

/-- `_strip_accents` from `output/html_writer.py`. -/
def strip_accents (s : String) : String :=
  String.mk (s.data.map (tr accentPairs))

/-- `unidecode(name)` from `matching/name_matcher.py`. -/
def unidecodeStr (s : String) : String :=
  String.mk (s.data.map (tr unidecodePairs))

/-- ASCII case-mapping tables (Python `str.lower`/`str.upper`; accented
characters are transliterated before any case-sensitive use in the modelled
code paths). -/
def lowerPairs : List (Char × Char) :=
  [('A','a'),('B','b'),('C','c'),('D','d'),('E','e'),('F','f'),('G','g'),('H','h'),('I','i'),('J','j'),('K','k'),('L','l'),('M','m'),('N','n'),('O','o'),('P','p'),('Q','q'),('R','r'),('S','s'),('T','t'),('U','u'),('V','v'),('W','w'),('X','x'),('Y','y'),('Z','z')]

def upperPairs : List (Char × Char) :=
  [('a','A'),('b','B'),('c','C'),('d','D'),('e','E'),('f','F'),('g','G'),('h','H'),('i','I'),('j','J'),('k','K'),('l','L'),('m','M'),('n','N'),('o','O'),('p','P'),('q','Q'),('r','R'),('s','S'),('t','T'),('u','U'),('v','V'),('w','W'),('x','X'),('y','Y'),('z','Z')]

def lowerChar (c : Char) : Char := tr lowerPairs c

def upperChar (c : Char) : Char := tr upperPairs c

def toLowerStr (s : String) : String := String.mk (s.data.map lowerChar)

def toUpperStr (s : String) : String := String.mk (s.data.map upperChar)

/-- Python `str.strip()`. -/
def pyStripL (l : List Char) : List Char :=
  ((l.dropWhile isWs).reverse.dropWhile isWs).reverse

def pyStrip (s : String) : String := String.mk (pyStripL s.data)

/-- Python `str.split()` (split on whitespace runs, dropping empties),
written with one-character lookahead so the recursion is structural. -/
def splitWsL : List Char → List (List Char)
  | [] => []
  | c :: rest =>
    if isWs c then splitWsL rest
    else
      match rest with
      | [] => [[c]]
      | d :: _ =>
        if isWs d then [c] :: splitWsL rest
        else
          match splitWsL rest with
          | t :: ts => (c :: t) :: ts
          | [] => [[c]]

/-- Python `" ".join(tokens)`. -/
def joinSpace : List (List Char) → List Char
  | [] => []
  | [t] => t
  | t :: t2 :: ts => t ++ ' ' :: joinSpace (t2 :: ts)

def charDigit (c : Char) : Nat := c.toNat - '0'.toNat

def digitsToNat (ds : List Char) : Nat := ds.foldl (fun a c => a * 10 + charDigit c) 0

/-! ## Week normalizer and clusterer (`output/html_writer.py`) -/

def MONTHS : List (String × Nat) :=
  [("Jan",1),("Feb",2),("Mar",3),("Apr",4),("May",5),("Jun",6),
   ("Jul",7),("Aug",8),("Sep",9),("Oct",10),("Nov",11),("Dec",12)]

def monthLookup (m : String) : Option Nat :=
  (MONTHS.find? (fun p => p.1 == m)).map (·.2)

/-- Reverse lookup of a month name (first match, insertion order, mirroring
`next(k for k, v in MONTHS.items() if v == month_num)`; the `none` case is
unreachable for values produced by `extract_start_date`). -/
def monthName (m : Nat) : String :=
  match MONTHS.find? (fun p => p.2 == m) with
  | some p => p.1
  | none => ""

/-- Regex `(\w{3})\s+(\d{1,2})` anchored at the start, with the month-name
check `m.group(1) in MONTHS` (`_extract_start_date`, first pattern). -/
def matchMonDay (l : List Char) : Option (Nat × Nat) :=
  match l with
  | c0 :: c1 :: c2 :: c3 :: rest =>
    if isWordChar c0 && isWordChar c1 && isWordChar c2 && isWs c3 then
      match rest.dropWhile isWs with
      | d0 :: rest2 =>
        if isDigitChar d0 then
          let day := match rest2 with
            | d1 :: _ => if isDigitChar d1 then charDigit d0 * 10 + charDigit d1
                         else charDigit d0
            | [] => charDigit d0
          (monthLookup (String.mk [c0, c1, c2])).map (fun m => (m, day))
        else none
      | [] => none
    else none
  | _ => none

/-- Continuation of the second pattern after the leading day digits:
`\s+(\w{3})\s+to`, with the month-name check. -/
def afterDayDigits (day : Nat) (l : List Char) : Option (Nat × Nat) :=
  match l with
  | c :: rest =>
    if isWs c then
      match rest.dropWhile isWs with
      | m0 :: m1 :: m2 :: c2 :: rest2 =>
        if isWordChar m0 && isWordChar m1 && isWordChar m2 && isWs c2 then
          match rest2.dropWhile isWs with
          | 't' :: 'o' :: _ => (monthLookup (String.mk [m0, m1, m2])).map (fun m => (m, day))
          | _ => none
        else none
      | _ => none
    else none
  | [] => none

/-- Regex `(\d{1,2})\s+(\w{3})\s+to` anchored at the start
(`_extract_start_date`, ITF pattern).  When two leading digits are present
the one-digit backtracking alternative can never succeed (`\s+` would have
to match a digit), so the parse is deterministic. -/
def matchDayMonTo (l : List Char) : Option (Nat × Nat) :=
  match l with
  | d0 :: d1 :: rest =>
    if isDigitChar d0 then
      if isDigitChar d1 then afterDayDigits (charDigit d0 * 10 + charDigit d1) rest
      else afterDayDigits (charDigit d0) (d1 :: rest)
    else none
  | _ => none

/-- `_extract_start_date` from `output/html_writer.py`. -/
def extract_start_date (week : String) : Option (Nat × Nat) :=
  if week = "" then none
  else match matchMonDay week.data with
    | some md => some md
    | none => matchDayMonTo week.data

/-- `_normalize_week` from `output/html_writer.py`. -/
def normalize_week (week : String) : String :=
  match extract_start_date week with
  | none => week
  | some (m, d) => monthName m ++ " " ++ toString d

/-- The sortable key `month*100 + day` used by `_merge_close_weeks`. -/
def weekKeyOpt (w : String) : Option Nat :=
  (extract_start_date w).map (fun md => md.1 * 100 + md.2)

/-- Python tuple comparison on `(sort_key, date, w)`; the date component is
determined by the key (`m*100+d` with `d ≤ 99`), so comparing
`(sort_key, w)` lexicographically is equivalent. -/
def wkLE (a b : Nat × String) : Bool :=
  a.1 < b.1 || (a.1 == b.1 && decide (a.2 ≤ b.2))

/-- One group of the greedy sweep: the anchor key and first label of the
group, plus the later members in join order. -/
structure WeekGroup where
  anchor : Nat
  first : String
  rest : List String
deriving Repr, DecidableEq

/-- The greedy grouping sweep of `_merge_close_weeks`: a label joins the
current group iff its key is within 5 of the group's first (anchor) key,
otherwise it starts a new group. -/
def sweepGo (g : WeekGroup) : List (Nat × String) → List WeekGroup
  | [] => [g]
  | (k, w) :: tl =>
    if k ≤ g.anchor + 5 then sweepGo ⟨g.anchor, g.first, g.rest ++ [w]⟩ tl
    else g :: sweepGo ⟨k, w, []⟩ tl

def sweep : List (Nat × String) → List WeekGroup
  | [] => []
  | (k, w) :: tl => sweepGo ⟨k, w, []⟩ tl

/-- The `dated` list of `_merge_close_weeks`: the parseable labels paired
with their sortable key. -/
def mcwDated (weeks : List String) : List (Nat × String) :=
  weeks.filterMap (fun w => (weekKeyOpt w).map (fun k => (k, w)))

/-- The dated pairs sorted by `(sort_key, date, w)`; the order is total and
antisymmetric on the pairs, so the sorted permutation is the same one
Python's `sorted` produces. -/
def mcwSorted (weeks : List String) : List (Nat × String) :=
  (mcwDated weeks).insertionSort (fun a b => wkLE a b = true)

/-- `_merge_close_weeks` from `output/html_writer.py`, as an association list
(one pair per occurrence; all occurrences of a label map to the same
canonical label).  The input set is modelled as a list. -/
def merge_close_weeks (weeks : List String) : List (String × String) :=
  ((sweep (mcwSorted weeks)).flatMap
      (fun g => (g.first :: g.rest).map (fun l => (l, g.first))))
    ++ (weeks.filter (fun w => (weekKeyOpt w).isNone)).map (fun w => (w, w))

/-- `merge_map.get(w, w)` — dictionary lookup with the label itself as default. -/
def mergeMapGet (m : List (String × String)) (w : String) : String :=
  match m.find? (fun p => p.1 == w) with
  | some p => p.2
  | none => w

/-- `_week_sort_key` helper: regex `Week\s+(\d+)`. -/
def matchWeekN (l : List Char) : Option Nat :=
  match l with
  | 'W' :: 'e' :: 'e' :: 'k' :: c :: rest =>
    if isWs c then
      let ds := (rest.dropWhile isWs).takeWhile isDigitChar
      if ds.isEmpty then none else some (digitsToNat ds)
    else none
  | _ => none

/-- `_week_sort_key` from `output/html_writer.py` (pairs compared
lexicographically, as Python compares the returned tuples). -/
def week_sort_key (week : String) : Nat × Nat :=
  if week = "" then (2, 0)
  else match extract_start_date week with
  | some (m, d) => (0, m * 100 + d)
  | none =>
    match matchWeekN week.data with
    | some n => (1, n)
    | none => (2, 0)

/-- Lexicographic order on week sort keys (Python tuple `<`). -/
def sortKeyLt (a b : Nat × Nat) : Prop :=
  a.1 < b.1 ∨ (a.1 = b.1 ∧ a.2 < b.2)


/-! ## Tournament name canonicalizer (`output/html_writer.py`) -/

/-- `TOURNAMENT_ALIASES` from `output/html_writer.py` (insertion order;
keys are unique in the source dict, so association-list lookup coincides
with Python dict lookup). -/
def TOURNAMENT_ALIASES : List (String × String) :=
  [("australian open", "Australian Open"),
  ("roland garros", "Roland Garros"),
  ("wimbledon", "Wimbledon"),
  ("the championships, wimbledon", "Wimbledon"),
  ("us open", "US Open"),
  ("united cup", "United Cup"),
  ("brisbane international presented by anz", "Brisbane"),
  ("brisbane international", "Brisbane"),
  ("bank of china hong kong tennis open", "Hong Kong"),
  ("adelaide international", "Adelaide"),
  ("asb classic", "Auckland"),
  ("open occitanie", "Montpellier"),
  ("dallas open", "Dallas"),
  ("nexo dallas open", "Dallas"),
  ("abn amro open", "Rotterdam"),
  ("ieb+ argentina open", "Buenos Aires"),
  ("argentina open", "Buenos Aires"),
  ("qatar exxonmobil open", "Doha"),
  ("qatar open", "Doha"),
  ("rio open presented by claro", "Rio de Janeiro"),
  ("rio open", "Rio de Janeiro"),
  ("brasil open", "Rio de Janeiro"),
  ("delray beach open", "Delray Beach"),
  ("abierto mexicano telcel presentado por hsbc", "Acapulco"),
  ("abierto mexicano de tenis", "Acapulco"),
  ("mexican open", "Acapulco"),
  ("dubai duty free tennis championships", "Dubai"),
  ("bci seguros chileopen", "Santiago"),
  ("bnp paribas open", "Indian Wells"),
  ("miami open presented by itau", "Miami"),
  ("miami open", "Miami"),
  ("tiriac open presented by unicredit bank", "Bucharest"),
  ("tiriac open", "Bucharest"),
  ("fayez sarofim & co. u.s. men's clay court championship", "Houston"),
  ("grand prix hassan ii", "Marrakech"),
  ("rolex monte-carlo masters", "Monte Carlo"),
  ("monte-carlo masters", "Monte Carlo"),
  ("barcelona open banc sabadell", "Barcelona"),
  ("barcelona open", "Barcelona"),
  ("bmw open by bitpanda", "Munich"),
  ("bmw open", "Munich"),
  ("mutua madrid open", "Madrid"),
  ("internazionali bnl d'italia", "Rome"),
  ("internazionali d'italia", "Rome"),
  ("bitpanda hamburg open", "Hamburg"),
  ("gonet geneva open", "Geneva"),
  ("boss open", "Stuttgart"),
  ("libema open", "'s-Hertogenbosch"),
  ("terra wortmann open", "Halle"),
  ("halle open", "Halle"),
  ("hsbc championships", "London"),
  ("cinch championships", "London"),
  ("the hsbc championships", "London"),
  ("mallorca championships presented by ecotrans group", "Mallorca"),
  ("mallorca championships", "Mallorca"),
  ("lexus eastbourne open", "Eastbourne"),
  ("nordea open", "Bastad"),
  ("efg swiss open gstaad", "Gstaad"),
  ("plava laguna croatia open", "Umag"),
  ("generali open", "Kitzbuhel"),
  ("millennium estoril open", "Estoril"),
  ("mubadala citi dc open", "Washington"),
  ("mubadala dc open", "Washington"),
  ("mifel tennis open by telcel oppo", "Los Cabos"),
  ("national bank open presented by rogers", "Montreal"),
  ("national bank open", "Montreal"),
  ("canadian open", "Montreal"),
  ("cincinnati open", "Cincinnati"),
  ("western & southern open", "Cincinnati"),
  ("winston-salem open", "Winston-Salem"),
  ("chengdu open", "Chengdu"),
  ("lynk & co hangzhou open", "Hangzhou"),
  ("laver cup", "Laver Cup"),
  ("kinoshita group japan open tennis championships", "Tokyo"),
  ("kinoshita group japan open", "Tokyo"),
  ("china open", "Beijing"),
  ("rolex shanghai masters", "Shanghai"),
  ("shanghai masters", "Shanghai"),
  ("almaty open", "Almaty"),
  ("bnp paribas fortis european open", "Brussels"),
  ("grand prix auvergne-rhone-alpes", "Lyon"),
  ("swiss indoors basel", "Basel"),
  ("erste bank open", "Vienna"),
  ("rolex paris masters", "Paris"),
  ("bnp paribas nordic open", "Stockholm"),
  ("nitto atp finals", "ATP Finals"),
  ("next gen atp finals", "Next Gen Finals"),
  ("qatar totalenergies open", "Doha"),
  ("qatar totalenergies open 2026", "Doha"),
  ("mubadala abu dhabi open presented by abu dhabi sports council", "Abu Dhabi"),
  ("mubadala abu dhabi open", "Abu Dhabi"),
  ("ostrava open", "Ostrava"),
  ("transylvania open powered by kaufland", "Cluj-Napoca"),
  ("transylvania open", "Cluj-Napoca"),
  ("merida open", "Merida"),
  ("mérida open", "Merida"),
  ("atx open", "Austin"),
  ("credit one charleston open", "Charleston"),
  ("copa colsanitas", "Bogota"),
  ("upper austria ladies linz", "Linz"),
  ("porsche tennis grand prix", "Stuttgart"),
  ("open capfinances rouen métropole", "Rouen"),
  ("open capfinances rouen metropole", "Rouen"),
  ("internationaux de strasbourg", "Strasbourg"),
  ("grand prix de son altesse royale la princesse lalla meryem", "Rabat"),
  ("vanda pharmaceuticals berlin tennis open", "Berlin"),
  ("lexus nottingham open", "Nottingham"),
  ("bad homburg open powered by solarwatt", "Bad Homburg"),
  ("bad homburg open", "Bad Homburg"),
  ("unicredit iasi open", "Iasi"),
  ("livesport prague open 2026", "Prague"),
  ("livesport prague open", "Prague"),
  ("msc hamburg ladies open", "Hamburg"),
  ("tennis in the land powered by rocket", "Cleveland"),
  ("tennis in the land", "Cleveland"),
  ("abierto gnp seguros", "Monterrey"),
  ("guadalajara open presented by santander", "Guadalajara"),
  ("guadalajara open", "Guadalajara"),
  ("sp open", "Sao Paulo"),
  ("singapore tennis open", "Singapore"),
  ("korea open", "Seoul"),
  ("wuhan open", "Wuhan"),
  ("ningbo open", "Ningbo"),
  ("toray pan pacific open tennis", "Tokyo"),
  ("toray pan pacific open", "Tokyo"),
  ("guangzhou open", "Guangzhou"),
  ("chennai open", "Chennai"),
  ("jiangxi open", "Jiujiang"),
  ("prudential hong kong tennis open", "Hong Kong"),
  ("wta finals riyadh", "WTA Finals"),
  ("wta finals", "WTA Finals"),
  ("hobart international", "Hobart"),
  ("bengaluru open", "Bengaluru"),
  ("workday canberra international", "Canberra"),
  ("bnc tennis open", "Noumea"),
  ("bangkok open 1", "Bangkok"),
  ("bangkok open 2", "Bangkok 2"),
  ("lexus nottingham challenger", "Nottingham"),
  ("aat challenger edicion tca", "Buenos Aires CH"),
  ("lexus glasgow challenger", "Glasgow"),
  ("indoor oeiras open 1", "Oeiras"),
  ("oeiras indoor 2", "Oeiras 2"),
  ("oeiras open 3", "Oeiras 3"),
  ("itajai open", "Itajai"),
  ("soma bay open", "Soma Bay"),
  ("novaworld phan thiet challenger 1", "Phan Thiet"),
  ("novaworld phan thiet challenger 2", "Phan Thiet 2"),
  ("bahrain open tennis challenger", "Bahrain"),
  ("open quimper bretagne occidentale", "Quimper"),
  ("better buzz coffee san diego open", "San Diego"),
  ("dove men+care concepción", "Concepcion"),
  ("dove men+care concepcion", "Concepcion"),
  ("quini 6 rosario challenger presentado por el gobierno de santa fe", "Rosario"),
  ("brisbane tennis international #1", "Brisbane"),
  ("brisbane tennis international #2", "Brisbane 2"),
  ("brisbane tennis international", "Brisbane"),
  ("cleveland open", "Cleveland"),
  ("tenerife challenger 1", "Tenerife"),
  ("tenerife challenger 2", "Tenerife 2"),
  ("tenerife challenger", "Tenerife"),
  ("koblenz tennis open", "Koblenz"),
  ("start romagna cup -1° trofeo città di cesenatico", "Cesenatico"),
  ("terega open pau pyrenees", "Pau"),
  ("terega open pau pyrénées", "Pau"),
  ("steve carter baton rouge challenger", "Baton Rouge"),
  ("baton rouge challenger", "Baton Rouge"),
  ("new delhi challenger", "New Delhi"),
  ("iloilo challenger", "Iloilo"),
  ("genting highlands challenger", "Genting Highlands"),
  ("munich ultra paraguay open", "Asuncion"),
  ("morelia open", "Morelia"),
  ("napoli tennis cup", "Naples"),
  ("iii challenger montemar ene construccion", "Montemar"),
  ("yokkaichi challenger", "Yokkaichi"),
  ("split open", "Split"),
  ("open menorca", "Menorca"),
  ("banorte tennis open", "San Luis Potosi"),
  ("são léo open de tênis", "Sao Leopoldo"),
  ("sao leo open de tenis", "Sao Leopoldo"),
  ("open città della disfida - barletta", "Barletta"),
  ("koyushokucho miyazaki challenger", "Miyazaki"),
  ("mexico city open", "Mexico City"),
  ("atkinsons monza open", "Monza"),
  ("campeonato internacional de tenis", "Campinas"),
  ("elizabeth moore sarasota open", "Sarasota"),
  ("wuning 1", "Wuning"),
  ("wuning 2", "Wuning 2"),
  ("busan open", "Busan"),
  ("tallahassee tennis challenger", "Tallahassee"),
  ("yucatan open", "Merida CH"),
  ("savannah challenger", "Savannah"),
  ("shymkent 1", "Shymkent"),
  ("shymkent 2", "Shymkent 2"),
  ("cote d'ivoire open 1", "Abidjan"),
  ("cote d'ivoire open 2", "Abidjan 2"),
  ("danube upper austria open", "Mauthausen"),
  ("salzburg open", "Salzburg"),
  ("challenger aix-en-provence", "Aix-en-Provence"),
  ("uams health little rock open", "Little Rock"),
  ("internazionali di tennis - citta'di vicenza", "Vicenza"),
  ("centurion 1", "Centurion"),
  ("centurion 2", "Centurion 2"),
  ("centurion 3", "Centurion 3"),
  ("internazionali di tennis città di perugia", "Perugia"),
  ("lexus birmingham open", "Birmingham"),
  ("neckarcup 2.0", "Heilbronn"),
  ("unicredit czech open", "Prostejov"),
  ("texas spine and joint men's championship", "Tyler"),
  ("bratislava open", "Bratislava"),
  ("lexus ilkley open", "Ilkley"),
  ("open sopra steria", "Lyon CH"),
  ("enea poznan open", "Poznan"),
  ("intaro open", "Targu Mures"),
  ("aspria tennis cup trofeo bcs", "Milan"),
  ("ion tiriac challenger", "Brasov"),
  ("internationaux de tennis de troyes", "Troyes"),
  ("hall of fame open", "Newport"),
  ("brawo open", "Braunschweig"),
  ("citta' di trieste", "Trieste"),
  ("lincoln challenger", "Lincoln"),
  ("open ciudad de pozoblanco", "Pozoblanco"),
  ("cranbrook tennis classic", "Bloomfield Hills"),
  ("open castilla y leon villa de el espinar", "Segovia"),
  ("internazionali di tennis san marino open", "San Marino"),
  ("svijany open", "Liberec"),
  ("cary tennis classic", "Cary"),
  ("royan atlantique open", "Royan"),
  ("quini 6 rosario challenger presentado por el gobierno de", "Rosario"),
  ("start romagna cup -1° trofeo città di", "Cesenatico"),
  ("start romagna cup -1° trofeo citta di", "Cesenatico"),
  ("start romagna cup", "Cesenatico"),
  ("brasília", "Brasilia"),
  ("new dehli", "New Delhi"),
  ("maha open", "Pune"),
  ("challenger città di lugano", "Lugano"),
  ("challenger citta di lugano", "Lugano"),
  ("open saint-brieuc armor agglomération", "St. Brieuc"),
  ("open saint-brieuc armor agglomeration", "St. Brieuc"),
  ("st brieuc", "St. Brieuc"),
  ("costa cálida region de murcia", "Murcia"),
  ("costa calida region de murcia", "Murcia"),
  ("košice", "Kosice"),
  ("vancouver", "Vancouver"),
  ("durham, nc", "Durham"),
  ("durham nc", "Durham"),
  ("oeiras 1 jamor indoor", "Oeiras"),
  ("oeiras 2 jamor indoor", "Oeiras 2"),
  ("oeiras jamor ladies open", "Oeiras 3"),
  ("oeiras open ceto", "Oeiras 4"),
  ("open arena les sables d'olonne", "Les Sables d'Olonne"),
  ("les sables d'olonne", "Les Sables d'Olonne"),
  ("dow tennis classic", "Midland"),
  ("megasaray hotels open", "Antalya"),
  ("austin 125", "Austin 125"),
  ("dubrovnik open", "Dubrovnik"),
  ("catalonia open solgironès", "La Bisbal d'Emporda"),
  ("catalonia open solgirones", "La Bisbal d'Emporda"),
  ("l'open 35 de saint malo", "Saint Malo"),
  ("istanbul open", "Istanbul"),
  ("parma ladies open presented by iren", "Parma"),
  ("parma ladies open", "Parma"),
  ("trophée clarins", "Paris 125"),
  ("trophee clarins", "Paris 125"),
  ("open delle puglie trofeo", "Foggia"),
  ("makarska open", "Makarska"),
  ("l&t mumbai open", "Mumbai")]

def aliasLookup (k : String) : Option String :=
  (TOURNAMENT_ALIASES.find? (fun p => p.1 == k)).map (·.2)

/-- The lookup key `_strip_accents(name).lower().strip()`. -/
def aliasKeyOf (s : String) : String := pyStrip (toLowerStr (strip_accents s))

/-- Regex substitution `re.sub(r"^(?:ATP|WTA)\s+", "", name)`. -/
def stripTourTag (l : List Char) : List Char :=
  match l with
  | 'A' :: 'T' :: 'P' :: c :: rest => if isWs c then rest.dropWhile isWs else l
  | 'W' :: 'T' :: 'A' :: c :: rest => if isWs c then rest.dropWhile isWs else l
  | _ => l

/-- Python `str.capitalize()`: first character uppercased, rest lowercased. -/
def capitalizeWord (w : List Char) : List Char :=
  match w with
  | [] => []
  | c :: rest => upperChar c :: rest.map lowerChar

def CONNECTORS : List String := ["DE", "DI", "DA", "DO", "DEL", "LA", "LE"]

/-- The ALL-CAPS re-casing branch of `_normalize_tournament_name`:
title-case each word, lowercasing the connector words except as first word,
joined by single spaces (`" ".join(result)`). -/
def titleCaseWords (s : String) : String :=
  let ws := splitWsL s.data
  String.mk (joinSpace (ws.enum.map (fun p =>
    if p.1 == 0 then capitalizeWord p.2
    else if CONNECTORS.contains (String.mk (p.2.map upperChar)) then p.2.map lowerChar
    else capitalizeWord p.2)))

/-- Regex `^(.+?)\s*\(CH\s*\d+\)$`: strip one trailing `(CH <digits>)`
group (with surrounding whitespace) provided a nonempty remainder, then
`.strip()` the captured group. -/
def stripCHSuffix (s : String) : String :=
  match s.data.reverse with
  | ')' :: r1 =>
    let ds := r1.takeWhile isDigitChar
    if ds.isEmpty then s else
    match (r1.dropWhile isDigitChar).dropWhile isWs with
    | 'H' :: 'C' :: '(' :: r4 =>
      let r5 := r4.dropWhile isWs
      if r5.isEmpty then s else pyStrip (String.mk r5.reverse)
    | _ => s
  | _ => s

/-- `_normalize_tournament_name` from `output/html_writer.py`. -/
def normalize_tournament_name (name : String) : String :=
  if name = "" then name
  else match aliasLookup (aliasKeyOf name) with
  | some a => a
  | none =>
    let stripped := String.mk (stripTourTag name.data)
    let stripped :=
      if stripped == toUpperStr stripped && decide (3 < stripped.length)
      then titleCaseWords stripped else stripped
    let stripped := stripCHSuffix stripped
    match aliasLookup (aliasKeyOf stripped) with
    | some a => a
    | none => strip_accents stripped

/-! ## Data model

Raw entry dicts and ranked-player dicts are modelled as structures; optional
dict fields read through `.get(key, "")` in the source are total fields with
`""` denoting absence (`player_rank` is not consulted by the modelled
resolution core and is omitted). -/

structure RawEntry where
  player_name : String := ""
  player_country : String := ""
  tournament : String := ""
  tier : String := ""
  week : String := ""
  sectionName : String := ""
  withdrawn : Bool := false
  reason : String := ""
  source : String := ""
  gender : String := ""
  withdrawal_type : String := ""
deriving Repr, DecidableEq

structure Player where
  name : String := ""
  rank : Nat := 9999
  gender : String := ""
  country_code : String := ""
deriving Repr, DecidableEq

/-! ## Name normalizer and player matcher (`matching/name_matcher.py`) -/

/-- Python `name.split(",", 1)`: split at the first comma. -/
def splitFirstComma (l : List Char) : List Char × List Char :=
  match l with
  | [] => ([], [])
  | c :: tl =>
    if c == ',' then ([], tl)
    else
      let p := splitFirstComma tl
      (c :: p.1, p.2)

/-- The hyphen/apostrophe pass of `normalize_name`:
`.replace("-", " ").replace("'", "").replace("’", "")`. -/
def replaceHyphApos : List Char → List Char
  | [] => []
  | c :: tl =>
    if c == '-' then ' ' :: replaceHyphApos tl
    else if c == '\'' || c == '’' then replaceHyphApos tl
    else c :: replaceHyphApos tl

/-- `normalize_name` from `matching/name_matcher.py`. -/
def normalize_name (name : String) : String :=
  if name = "" then ""
  else
    let n1 := if name.data.contains ',' then
        let p := splitFirstComma name.data
        pyStripL p.2 ++ ' ' :: pyStripL p.1
      else name.data
    let n2 := n1.map (tr unidecodePairs)
    let n3 := n2.map lowerChar
    let n4 := replaceHyphApos n3
    String.mk (joinSpace (splitWsL n4))

/-- `config.FUZZY_MATCH_THRESHOLD`. -/
def FUZZY_MATCH_THRESHOLD : Nat := 85

/-- `config.FUZZY_MATCH_STRICT_THRESHOLD`. -/
def FUZZY_MATCH_STRICT_THRESHOLD : Nat := 95

/-- The per-entry accept decision of the loop body of
`match_player_to_entries`: gender skip, exact normalized-name fast path,
strict fuzzy accept, and borderline fuzzy accept with country confirmation.
`score` models the external `rapidfuzz` `fuzz.token_sort_ratio`. -/
def acceptEntry (score : String → String → Nat) (threshold : Nat)
    (player : Player) (entry : RawEntry) : Bool :=
  let player_norm := normalize_name player.name
  if player.gender != "" && entry.gender != "" && player.gender != entry.gender then false
  else
    let entry_norm := normalize_name entry.player_name
    if player_norm == entry_norm then true
    else
      let s := score player_norm entry_norm
      if s ≥ FUZZY_MATCH_STRICT_THRESHOLD then true
      else if s ≥ threshold then
        toUpperStr player.country_code != ""
          && toUpperStr entry.player_country != ""
          && toUpperStr player.country_code == toUpperStr entry.player_country
      else false

/-- `match_player_to_entries` from `matching/name_matcher.py` (the appended
matches are exactly the entries accepted by the loop body, in order). -/
def match_player_to_entries (score : String → String → Nat) (player : Player)
    (entry_list : List RawEntry) (threshold : Nat) : List RawEntry :=
  entry_list.filter (acceptEntry score threshold player)

/-- The gender-keyed pre-grouping `entries_by_gender.get(gender, entries)`
of `build_player_entry_map`. -/
def entriesByGenderGet (entries : List RawEntry) (g : String) : List RawEntry :=
  if g == "M" || g == "F" then entries.filter (fun e => e.gender == g) else entries

/-- The normalized-name index `name_index` of `build_player_entry_map`
(dict of lists built by `setdefault`/`append` in iteration order, so lookup
returns the entries with that normalized name in original order). -/
def nameIndexGet (entries : List RawEntry) (nrm : String) : List RawEntry :=
  entries.filter (fun e => normalize_name e.player_name == nrm)

/-- The per-player key `f"{player['name']}|{player.get('gender','')}"`. -/
def playerKey (p : Player) : String := p.name ++ "|" ++ p.gender

/-- The per-player loop body of `build_player_entry_map`: the list stored
under the player's key (exact normalized-name path with cross-gender hits
dropped, else the fuzzy fallback over the gender bucket). -/
def playerEntriesFor (score : String → String → Nat) (entries : List RawEntry)
    (player : Player) : List RawEntry :=
  let player_norm := normalize_name player.name
  let gender := player.gender
  let exact_matches := (nameIndexGet entries player_norm).filter
      (fun e => !(gender != "" && e.gender != "" && gender != e.gender))
  if exact_matches.isEmpty then
    match_player_to_entries score player (entriesByGenderGet entries gender) FUZZY_MATCH_THRESHOLD
  else exact_matches

/-- `build_player_entry_map` from `matching/name_matcher.py` as the final
dictionary (later assignments to the same key win, hence the reversed scan). -/
def build_player_entry_map (score : String → String → Nat) (players : List Player)
    (entries : List RawEntry) : String → Option (List RawEntry) :=
  fun k => (players.reverse.find? (fun p => playerKey p == k)).map (playerEntriesFor score entries)

/-! ## Deduplicator/reconciler and promotion resolver (`output/site_writer.py`) -/

/-- `re.sub(r"\s*<tok>\s*$", "", w)`: strip one trailing occurrence of a
token with surrounding whitespace. -/
def stripTrailTokWs (t : Char) (s : String) : String :=
  match (s.data.reverse).dropWhile isWs with
  | c :: rest => if c == t then String.mk ((rest.dropWhile isWs).reverse) else s
  | [] => s

/-- The week cleanup applied to `entry["week"]` in `write_site_data`
(strip a trailing `❔` then a trailing `?`, then `.strip()`). -/
def cleanWeek (w : String) : String :=
  pyStrip (stripTrailTokWs '?' (stripTrailTokWs '❔' w))

/-- `getattr(config, "CHALLENGER_CATEGORIES", {})`: `config.py` defines no
`CHALLENGER_CATEGORIES`, so the lookup table is empty and the challenger
tier enrichment in `write_site_data` never fires. -/
def CHALLENGER_CATEGORIES : List (String × String) := []

/-- The challenger tier enrichment in the dedup loop of `write_site_data`. -/
def enrichTier (tourn raw_tier : String) : String :=
  if toLowerStr raw_tier == "atp challenger" || toLowerStr raw_tier == "challenger" then
    match CHALLENGER_CATEGORIES.find? (fun p => p.1 == tourn) with
    | some p => "ATP Challenger " ++ p.2
    | none => raw_tier
  else raw_tier

/-- The `entry_data` dict appended to `deduped` in `write_site_data`
(`reason`/`withdrawal_type` only set when nonempty; modelled as `""`). -/
structure SiteEntry where
  tournament : String := ""
  tier : String := ""
  sectionName : String := ""
  week : String := ""
  source : String := ""
  withdrawn : Bool := false
  reason : String := ""
  withdrawal_type : String := ""
deriving Repr, DecidableEq

/-- The normalized/merged week value of an entry in `write_site_data`. -/
def entryWeekVal (mergeMap : List (String × String)) (e : RawEntry) : String :=
  mergeMapGet mergeMap (normalize_week (cleanWeek e.week))

/-- The dedup key `(tourn_name, section, week_val)` of `write_site_data`. -/
def dedupKeyOf (mergeMap : List (String × String)) (e : RawEntry) :
    String × String × String :=
  (normalize_tournament_name e.tournament, e.sectionName, entryWeekVal mergeMap e)

def mkSiteEntry (e : RawEntry) (tourn sct wk : String) : SiteEntry :=
  { tournament := tourn, tier := enrichTier tourn e.tier, sectionName := sct,
    week := wk, source := e.source, withdrawn := e.withdrawn,
    reason := e.reason, withdrawal_type := e.withdrawal_type }

/-- First inner loop of the collision branch of `write_site_data`: flip the
first record matching the key to withdrawn (adopting the incoming source)
if it is not already withdrawn, then stop. -/
def patchWithdraw (src tourn sct wk : String) : List SiteEntry → List SiteEntry
  | [] => []
  | d :: tl =>
    if d.tournament == tourn && d.sectionName == sct && d.week == wk then
      (if d.withdrawn then d else { d with withdrawn := true, source := src }) :: tl
    else d :: patchWithdraw src tourn sct wk tl

/-- Second inner loop of the collision branch: an `OfficialDraw` entry with
a reason overwrites source/reason/withdrawn (and `withdrawal_type` when
supplied) on the first record matching the key, then stops. -/
def patchOfficial (e : RawEntry) (tourn sct wk : String) : List SiteEntry → List SiteEntry
  | [] => []
  | d :: tl =>
    if d.tournament == tourn && d.sectionName == sct && d.week == wk then
      { d with source := "OfficialDraw", reason := e.reason, withdrawn := true,
               withdrawal_type := if e.withdrawal_type != "" then e.withdrawal_type
                                  else d.withdrawal_type } :: tl
    else d :: patchOfficial e tourn sct wk tl

/-- The whole collision branch (`dedup_key in seen`) of `write_site_data`. -/
def collisionUpdate (deduped : List SiteEntry) (e : RawEntry)
    (tourn sct wk : String) : List SiteEntry :=
  let d1 := if e.withdrawn then patchWithdraw e.source tourn sct wk deduped else deduped
  if e.source == "OfficialDraw" && e.reason != "" then patchOfficial e tourn sct wk d1 else d1

/-- The dedup fold of `write_site_data` over one player's entry list. -/
def dedupGo (mergeMap : List (String × String)) :
    List (String × String × String) → List SiteEntry → List RawEntry → List SiteEntry
  | _, deduped, [] => deduped
  | seen, deduped, e :: tl =>
    let k := dedupKeyOf mergeMap e
    if seen.contains k then
      dedupGo mergeMap seen (collisionUpdate deduped e k.1 k.2.1 k.2.2) tl
    else
      dedupGo mergeMap (k :: seen) (deduped ++ [mkSiteEntry e k.1 k.2.1 k.2.2]) tl

def dedup_entries (mergeMap : List (String × String)) (entries : List RawEntry) :
    List SiteEntry :=
  dedupGo mergeMap [] [] entries

/-- `SECTION_RANK.get(section, -1)` from `write_site_data`. -/
def SECTION_RANK (s : String) : Int :=
  if s == "Alternates" then 0
  else if s == "Qualifying" then 1
  else if s == "Main Draw" then 2
  else -1

/-- `active_keys` of the promotion resolver (a Python set; duplicates in the
list model are harmless since only membership is consulted). -/
def activeKeys (l : List SiteEntry) : List (String × String × Int) :=
  (l.filter (fun d => !d.withdrawn)).map
    (fun d => (d.tournament, d.week, SECTION_RANK d.sectionName))

/-- Keep-predicate of the promotion list comprehension in `write_site_data`. -/
def promotionKeep (l : List SiteEntry) (d : SiteEntry) : Bool :=
  !(d.withdrawn && (activeKeys l).any (fun k =>
    k.1 == d.tournament && k.2.1 == d.week && decide (SECTION_RANK d.sectionName < k.2.2)))

/-- The section promotion resolver of `write_site_data`. -/
def promotion_filter (l : List SiteEntry) : List SiteEntry :=
  l.filter (promotionKeep l)

/-! ## Abbreviated-name expansion (`_attach_draw_reasons` in `main.py`) -/

/-- Regex `([A-Z][a-z]{0,3})\.\s+(.+)` on an OfficialDraw name, returning
(initial, `group(2).strip().lower()`).  The `{0,3}` bound is deterministic:
a longer lowercase run cannot be saved by backtracking since the character
after a shorter prefix is still lowercase, not `.`.  When everything after
`\s` is whitespace, regex backtracking still matches with an all-whitespace
`group(2)`, which strips to the empty surname. -/
def matchAbbrev (l : List Char) : Option (Char × String) :=
  match l with
  | c0 :: rest =>
    if isAsciiUpper c0 && decide ((rest.takeWhile isAsciiLower).length ≤ 3) then
      match rest.dropWhile isAsciiLower with
      | '.' :: r2 =>
        let wsrun := r2.takeWhile isWs
        let tail := r2.dropWhile isWs
        if wsrun.isEmpty then none
        else if !tail.isEmpty then some (c0, toLowerStr (pyStrip (String.mk tail)))
        else if decide (2 ≤ wsrun.length) then some (c0, "")
        else none
      | _ => none
    else none
  | [] => none

/-- Regex `[A-Z][a-z]{0,3}\.` (the unexpanded-name test of step 3). -/
def hasAbbrevStart (l : List Char) : Bool :=
  match l with
  | c0 :: rest =>
    isAsciiUpper c0 && decide ((rest.takeWhile isAsciiLower).length ≤ 3)
      && (match rest.dropWhile isAsciiLower with
          | '.' :: _ => true
          | _ => false)
  | [] => false

/-- The `(initial, surname, gender)` key of an OfficialDraw entry. -/
def drawKeyOf (e : RawEntry) : Option (Char × String × String) :=
  (matchAbbrev e.player_name.data).map (fun p => (p.1, p.2, e.gender))

/-- `draw_by_key[k]` (dict of lists built by `setdefault`/`append`). -/
def drawByKey (draws : List RawEntry) (k : Char × String × String) : List RawEntry :=
  draws.filter (fun de => drawKeyOf de == some k)

/-- The two lookup keys `(initial, surname, gender)` and
`(initial, surname_last, gender)` derived from a full name. -/
def fullNameKeys (e : RawEntry) : List (Char × String × String) :=
  match splitWsL e.player_name.data with
  | p0 :: p1 :: ps =>
    let initial := upperChar (p0.headD ' ')
    let surname := toLowerStr (String.mk (joinSpace (p1 :: ps)))
    let lastTok := toLowerStr (String.mk ((p1 :: ps).getLastD []))
    [(initial, surname, e.gender), (initial, lastTok, e.gender)]
  | _ => []

/-- `full_name_lookup` of `_attach_draw_reasons`: first-wins dict from every
non-OfficialDraw entry's keys to its full name. -/
def fullNameLookup (all : List RawEntry) (k : Char × String × String) : Option String :=
  (all.find? (fun e => e.source != "OfficialDraw" && (fullNameKeys e).contains k)).map
    (·.player_name)

/-- Step 1 of `_attach_draw_reasons`: attach the first nonempty OfficialDraw
reason found under either key to a reasonless non-OfficialDraw withdrawal. -/
def attachReason (draws : List RawEntry) (e : RawEntry) : RawEntry :=
  if e.source != "OfficialDraw" && e.withdrawn && e.reason == "" then
    match fullNameKeys e with
    | [k1, k2] =>
      match (drawByKey draws k1 ++ drawByKey draws k2).find? (fun de => de.reason != "") with
      | some de => { e with reason := de.reason }
      | none => e
    | _ => e
  else e

/-- Step 2 of `_attach_draw_reasons`: expand an abbreviated OfficialDraw
name through the reverse lookup (full remaining surname first, then its
last token). -/
def expandDrawName (all : List RawEntry) (de : RawEntry) : RawEntry :=
  match drawKeyOf de with
  | none => de
  | some k =>
    let full := match fullNameLookup all k with
      | some f => some f
      | none =>
        let sparts := splitWsL k.2.1.data
        if 2 ≤ sparts.length then
          fullNameLookup all (k.1, String.mk (sparts.getLastD []), k.2.2)
        else none
    match full with
    | some f => { de with player_name := f }
    | none => de

/-- `_attach_draw_reasons` from `main.py` as a pure function on the entry
list (in-place mutation modelled by rebuilding the list; result order is
the non-OfficialDraw entries followed by the kept expanded OfficialDraw
entries, as in `all_entries[:] = ... + kept`). -/
def attach_draw_reasons (all : List RawEntry) : List RawEntry :=
  let draws := all.filter (fun e => e.source == "OfficialDraw")
  if draws.isEmpty then all
  else
    let nonDraw := (all.filter (fun e => e.source != "OfficialDraw")).map (attachReason draws)
    let kept := (draws.map (expandDrawName all)).filter
      (fun e => !hasAbbrevStart e.player_name.data)
    nonDraw ++ kept

/-- Cumulative day-of-year of a `(month, day)` start date in a non-leap
year: the calendar-day scale that "within 5 calendar days" refers to
(auxiliary definition for stating the distance between two start dates;
not part of the source, which compares `month*100+day` keys). -/
def dayOfYear (md : Nat × Nat) : Nat :=
  (List.take (md.1 - 1) [31,28,31,30,31,30,31,31,30,31,30,31]).sum + md.2

/-- Concrete full-name entry of the C6 expansion scenario, generic in
tournament, tier, week, section, source and gender. -/
def vukicFull (X tier1 wk sct src g : String) : RawEntry :=
  { player_name := "Aleksandar Vukic", tournament := X, tier := tier1, week := wk,
    sectionName := sct, source := src, gender := g }

/-- Concrete authoritative withdrawal record of the C6 expansion scenario. -/
def vukicDraw (X tier2 wk sct g wt : String) : RawEntry :=
  { player_name := "A. Vukic", tournament := X, tier := tier2, week := wk,
    sectionName := sct, source := "OfficialDraw", gender := g, withdrawn := true,
    reason := "shoulder", withdrawal_type := wt }

/-- Number of commas in a string (for delimiting the domain on which
`normalize_name` is idempotent). -/
def countComma (s : String) : Nat := s.data.countP (fun c => c == ',')

end Tennis

namespace Tennis

/-! ## Helper lemmas -/

theorem patchWithdraw_self (src tourn sct wk : String) (l : List SiteEntry)
    (h : ∀ d ∈ l, d.tournament = tourn → d.sectionName = sct → d.week = wk →
      d.withdrawn = true) :
    patchWithdraw src tourn sct wk l = l := by
  induction l with
  | nil => rfl
  | cons d tl ih =>
    rw [patchWithdraw]
    by_cases hc : d.tournament == tourn && d.sectionName == sct && d.week == wk
    · rw [if_pos hc]
      simp only [Bool.and_eq_true, beq_iff_eq] at hc
      rw [h d (by simp) hc.1.1 hc.1.2 hc.2, if_pos rfl]
    · rw [if_neg hc, ih (fun d hd => h d (List.mem_cons_of_mem _ hd))]

end Tennis

namespace Tennis

theorem dedup_pair (mergeMap : List (String × String)) (x y : RawEntry)
    (t s w : String)
    (hx : dedupKeyOf mergeMap x = (t, s, w)) (hy : dedupKeyOf mergeMap y = (t, s, w)) :
    dedup_entries mergeMap [x, y] = collisionUpdate [mkSiteEntry x t s w] y t s w := by
  rw [dedup_entries]
  simp only [dedupGo, hx, hy, List.contains_nil, List.contains_cons, Bool.false_eq_true,
    if_false, List.nil_append, beq_self_eq_true, Bool.true_or, if_true]

theorem collision_flip (d : SiteEntry) (e : RawEntry) (t s w : String)
    (hdt : d.tournament = t) (hds : d.sectionName = s) (hdw : d.week = w)
    (hdwd : d.withdrawn = false) (hewd : e.withdrawn = true) :
    (collisionUpdate [d] e t s w).map (fun r => (r.withdrawn, r.source))
      = [(true, e.source)] := by
  subst hdt hds hdw
  by_cases ho : e.source == "OfficialDraw" && e.reason != ""
  · have hand := ho
    rw [Bool.and_eq_true, beq_iff_eq, bne_iff_ne] at hand
    obtain ⟨hs, hrne⟩ := hand
    by_cases hwt : e.withdrawal_type = ""
    · simp [collisionUpdate, hewd, patchWithdraw, patchOfficial, hdwd, ho, hs, hrne, hwt]
    · simp [collisionUpdate, hewd, patchWithdraw, patchOfficial, hdwd, ho, hs, hrne, hwt]
  · simp [collisionUpdate, hewd, patchWithdraw, patchOfficial, hdwd, ho]

theorem collision_keep_withdrawn (d : SiteEntry) (e : RawEntry) (t s w : String)
    (hdt : d.tournament = t) (hds : d.sectionName = s) (hdw : d.week = w)
    (hdwd : d.withdrawn = true) (hewd : e.withdrawn = false) :
    (collisionUpdate [d] e t s w).map (fun r => r.withdrawn) = [true] := by
  subst hdt hds hdw
  by_cases ho : e.source == "OfficialDraw" && e.reason != ""
  · by_cases hwt : e.withdrawal_type = ""
    · simp [collisionUpdate, hewd, patchWithdraw, patchOfficial, hdwd, ho, hwt]
    · simp [collisionUpdate, hewd, patchWithdraw, patchOfficial, hdwd, ho, hwt]
  · simp [collisionUpdate, hewd, patchWithdraw, patchOfficial, hdwd, ho]

/-- C1: in the reconciler of `write_site_data`, an incoming withdrawn entry
colliding on the dedup key `(canonical tournament, section, canonical week)`
with a not-yet-withdrawn merged record flips the record to withdrawn and
replaces its source with the incoming entry's source; in particular two
entries sharing the canonical key, one active and one withdrawn (in either
order), merge to a single withdrawn record. -/
theorem c1_dedup_withdraw_flip (mergeMap : List (String × String)) (e1 e2 : RawEntry)
    (hk : dedupKeyOf mergeMap e1 = dedupKeyOf mergeMap e2)
    (h1 : e1.withdrawn = false) (h2 : e2.withdrawn = true) :
    (dedup_entries mergeMap [e1, e2]).map (fun r => (r.withdrawn, r.source))
      = [(true, e2.source)] ∧
    (dedup_entries mergeMap [e2, e1]).map (fun r => r.withdrawn) = [true] := by
  rcases hKey : dedupKeyOf mergeMap e2 with ⟨t, s, w⟩
  have hk1 : dedupKeyOf mergeMap e1 = (t, s, w) := by rw [hk, hKey]
  constructor
  · rw [dedup_pair mergeMap e1 e2 t s w hk1 hKey]
    exact collision_flip _ _ _ _ _ rfl rfl rfl h1 h2
  · rw [dedup_pair mergeMap e2 e1 t s w hKey hk1]
    exact collision_keep_withdrawn _ _ _ _ _ rfl rfl rfl (by simp [mkSiteEntry, h2]) h1

/-- Witness for C1 at a concrete pair of Doha Main Draw entries. -/
theorem c1_witness :
    (dedup_entries []
        [({ tournament := "Doha", week := "Feb 16", sectionName := "Main Draw",
            source := "A", withdrawn := false } : RawEntry),
         ({ tournament := "Doha", week := "Feb 16", sectionName := "Main Draw",
            source := "B", withdrawn := true } : RawEntry)]).map
        (fun r => (r.withdrawn, r.source))
      = [(true, "B")] :=
  (c1_dedup_withdraw_flip []
    ({ tournament := "Doha", week := "Feb 16", sectionName := "Main Draw",
       source := "A", withdrawn := false } : RawEntry)
    ({ tournament := "Doha", week := "Feb 16", sectionName := "Main Draw",
       source := "B", withdrawn := true } : RawEntry) rfl rfl rfl).1

/-- C5: after the promotion resolver, a withdrawn record in a strictly
lower-priority section is removed whenever an active record for the same
tournament and week exists in a higher-priority section, while the active
record itself is retained — so the output never shows a withdrawal in a
lower section alongside an active record in a higher one. -/
theorem c5_promotion_invariant (l : List SiteEntry) (d a : SiteEntry)
    (hd : d ∈ l) (ha : a ∈ l) (hdw : d.withdrawn = true) (haw : a.withdrawn = false)
    (ht : a.tournament = d.tournament) (hwk : a.week = d.week)
    (hr : SECTION_RANK d.sectionName < SECTION_RANK a.sectionName) :
    d ∉ promotion_filter l ∧ a ∈ promotion_filter l := by
  constructor
  · intro hmem
    rw [promotion_filter, List.mem_filter] at hmem
    have hkeep := hmem.2
    rw [promotionKeep, hdw, Bool.not_eq_true', Bool.and_eq_false_iff] at hkeep
    rcases hkeep with h | h
    · exact absurd h (by simp)
    · rw [List.any_eq_false] at h
      refine h (a.tournament, a.week, SECTION_RANK a.sectionName) ?_ ?_
      · rw [activeKeys]
        exact List.mem_map_of_mem _ (List.mem_filter.mpr ⟨ha, by rw [haw]; rfl⟩)
      · simp [ht, hwk, hr]
  · rw [promotion_filter, List.mem_filter]
    exact ⟨ha, by rw [promotionKeep, haw]; rfl⟩

/-- Witness for C5: a Qualifying withdrawal plus an active Main Draw entry
for the same tournament and week retains only the Main Draw entry. -/
theorem c5_witness :
    (({ tournament := "T", sectionName := "Qualifying", week := "W",
        withdrawn := true } : SiteEntry)
        ∉ promotion_filter
          [({ tournament := "T", sectionName := "Qualifying", week := "W",
              withdrawn := true } : SiteEntry),
           ({ tournament := "T", sectionName := "Main Draw", week := "W",
              withdrawn := false } : SiteEntry)]) ∧
    (({ tournament := "T", sectionName := "Main Draw", week := "W",
        withdrawn := false } : SiteEntry)
        ∈ promotion_filter
          [({ tournament := "T", sectionName := "Qualifying", week := "W",
              withdrawn := true } : SiteEntry),
           ({ tournament := "T", sectionName := "Main Draw", week := "W",
              withdrawn := false } : SiteEntry)]) :=
  c5_promotion_invariant
    [({ tournament := "T", sectionName := "Qualifying", week := "W",
        withdrawn := true } : SiteEntry),
     ({ tournament := "T", sectionName := "Main Draw", week := "W",
        withdrawn := false } : SiteEntry)]
    ({ tournament := "T", sectionName := "Qualifying", week := "W",
       withdrawn := true } : SiteEntry)
    ({ tournament := "T", sectionName := "Main Draw", week := "W",
       withdrawn := false } : SiteEntry)
    (List.mem_cons_self _ _) (by decide) rfl rfl rfl rfl (by decide)

/-- C10: frame property of the reconciler's collision branch — an incoming
duplicate that is not an OfficialDraw entry with a nonempty reason leaves a
merged record that is already withdrawn entirely unchanged (source, reason,
withdrawal type and withdrawn flag all keep their earlier values). -/
theorem c10_collision_frame (deduped : List SiteEntry) (e : RawEntry)
    (tourn sct wk : String)
    (hw : ∀ d ∈ deduped, d.tournament = tourn → d.sectionName = sct → d.week = wk →
      d.withdrawn = true)
    (hno : ¬(e.source = "OfficialDraw" ∧ e.reason ≠ "")) :
    collisionUpdate deduped e tourn sct wk = deduped := by
  rw [collisionUpdate]
  have h2 : (e.source == "OfficialDraw" && e.reason != "") = false := by
    rw [Bool.and_eq_false_iff]
    by_cases hs : e.source = "OfficialDraw"
    · right
      rw [bne_eq_false_iff_eq]
      by_contra hr
      exact hno ⟨hs, hr⟩
    · left
      exact beq_eq_false_iff_ne.mpr hs
  rw [h2, if_neg (by simp)]
  by_cases hwd : e.withdrawn
  · rw [if_pos hwd, patchWithdraw_self _ _ _ _ _ hw]
  · rw [if_neg hwd]

/-- Witness for C10 at a concrete already-withdrawn record. -/
theorem c10_witness :
    collisionUpdate
        [({ tournament := "T", sectionName := "Main Draw", week := "W",
            withdrawn := true, source := "A" } : SiteEntry)]
        ({ tournament := "T", sectionName := "Main Draw", week := "W",
           withdrawn := true, source := "B" } : RawEntry) "T" "Main Draw" "W"
      = [({ tournament := "T", sectionName := "Main Draw", week := "W",
            withdrawn := true, source := "A" } : SiteEntry)] :=
  c10_collision_frame _ _ _ _ _ (by decide) (by decide)

/-- C9: matching never crosses a known gender mismatch — every entry in the
list that `build_player_entry_map` stores for a player with a nonempty
gender (exact normalized-name path or fuzzy fallback) has an empty gender
or the player's gender. -/
theorem c9_gender_invariant (score : String → String → Nat) (entries : List RawEntry)
    (p : Player) (hg : p.gender ≠ "") :
    ∀ e ∈ playerEntriesFor score entries p, e.gender = "" ∨ e.gender = p.gender := by
  intro e he
  by_cases hge : e.gender = ""
  · exact Or.inl hge
  right
  by_contra hne
  have hmix : (p.gender != "" && e.gender != "" && p.gender != e.gender) = true := by
    simp only [Bool.and_eq_true, bne_iff_ne]
    exact ⟨⟨hg, hge⟩, fun h => hne h.symm⟩
  rw [playerEntriesFor] at he
  by_cases hemp : ((nameIndexGet entries (normalize_name p.name)).filter
      (fun e => !(p.gender != "" && e.gender != "" && p.gender != e.gender))).isEmpty
  · rw [if_pos hemp] at he
    rw [match_player_to_entries, List.mem_filter] at he
    have hacc := he.2
    rw [acceptEntry] at hacc
    rw [if_pos hmix] at hacc
    exact Bool.false_ne_true hacc
  · rw [if_neg hemp] at he
    have := (List.mem_filter.mp he).2
    rw [hmix] at this
    exact Bool.false_ne_true this

/-- Witness for C9: the matching entry a male player's computed list holds
(from a mixed pool) has an empty or matching gender. -/
theorem c9_witness :
    ({ player_name := "Novak Djokovic", gender := "M" } : RawEntry).gender = "" ∨
    ({ player_name := "Novak Djokovic", gender := "M" } : RawEntry).gender = "M" :=
  c9_gender_invariant (fun _ _ => 0)
    [({ player_name := "Novak Djokovic", gender := "M" } : RawEntry),
     ({ player_name := "Novak Djokovic", gender := "F" } : RawEntry)]
    ({ name := "Novak Djokovic", gender := "M" } : Player) (by decide)
    ({ player_name := "Novak Djokovic", gender := "M" } : RawEntry) (by decide)

theorem mk_eq_empty_iff (l : List Char) : String.mk l = "" ↔ l = [] := by
  constructor
  · intro h
    have := congrArg String.data h
    simpa using this
  · intro h
    rw [h]

theorem toUpperStr_eq_empty_iff (x : String) : toUpperStr x = "" ↔ x = "" := by
  cases x with
  | mk d =>
    rw [toUpperStr]
    simp only [mk_eq_empty_iff, List.map_eq_nil_iff]

/-- C4: in the fuzzy matching stage of `match_player_to_entries`, a
gender-compatible candidate with token-order-insensitive score at or above
the strict threshold (95) is accepted unconditionally, and a candidate with
score in [85, 95) is accepted iff both sides carry a nonempty country code
and the codes agree case-insensitively.  `score` models the external
`fuzz.token_sort_ratio`, which returns 100 on identical strings. -/
theorem c4_fuzzy_thresholds (score : String → String → Nat)
    (hscore : ∀ s, score s s = 100)
    (player : Player) (entries : List RawEntry) (entry : RawEntry)
    (hmem : entry ∈ entries)
    (hg : player.gender = "" ∨ entry.gender = "" ∨ player.gender = entry.gender) :
    (FUZZY_MATCH_STRICT_THRESHOLD ≤
        score (normalize_name player.name) (normalize_name entry.player_name) →
      entry ∈ match_player_to_entries score player entries FUZZY_MATCH_THRESHOLD) ∧
    (FUZZY_MATCH_THRESHOLD ≤
        score (normalize_name player.name) (normalize_name entry.player_name) →
     score (normalize_name player.name) (normalize_name entry.player_name) <
        FUZZY_MATCH_STRICT_THRESHOLD →
      (entry ∈ match_player_to_entries score player entries FUZZY_MATCH_THRESHOLD ↔
        (player.country_code ≠ "" ∧ entry.player_country ≠ "" ∧
         toUpperStr player.country_code = toUpperStr entry.player_country))) := by
  have hgb : (player.gender != "" && entry.gender != "" && player.gender != entry.gender)
      = false := by
    rcases hg with h | h | h <;> simp [h]
  constructor
  · intro hge
    rw [match_player_to_entries, List.mem_filter]
    refine ⟨hmem, ?_⟩
    simp only [acceptEntry, hgb, Bool.false_eq_true, if_false]
    by_cases heq : normalize_name player.name == normalize_name entry.player_name
    · rw [if_pos heq]
    · rw [if_neg heq, if_pos hge]
  · intro hge hlt
    have h95 : FUZZY_MATCH_STRICT_THRESHOLD = 95 := rfl
    have hne : (normalize_name player.name == normalize_name entry.player_name) = false := by
      rw [beq_eq_false_iff_ne]
      intro h
      rw [h, hscore, h95] at hlt
      omega
    have hnlt : ¬ FUZZY_MATCH_STRICT_THRESHOLD ≤
        score (normalize_name player.name) (normalize_name entry.player_name) := by
      rw [h95]
      rw [h95] at hlt
      omega
    constructor
    · intro hmm
      rw [match_player_to_entries, List.mem_filter] at hmm
      have hacc := hmm.2
      simp only [acceptEntry, hgb, Bool.false_eq_true, if_false, hne,
        if_neg hnlt, if_pos hge, Bool.and_eq_true, bne_iff_ne, beq_iff_eq] at hacc
      refine ⟨?_, ?_, hacc.2⟩
      · intro h
        exact hacc.1.1 (by rw [h]; rfl)
      · intro h
        exact hacc.1.2 (by rw [h]; rfl)
    · intro hc
      rw [match_player_to_entries, List.mem_filter]
      refine ⟨hmem, ?_⟩
      simp only [acceptEntry, hgb, Bool.false_eq_true, if_false, hne,
        if_neg hnlt, if_pos hge, Bool.and_eq_true, bne_iff_ne, beq_iff_eq]
      refine ⟨⟨?_, ?_⟩, hc.2.2⟩
      · intro h
        exact hc.1 ((toUpperStr_eq_empty_iff _).mp h)
      · intro h
        exact hc.2.1 ((toUpperStr_eq_empty_iff _).mp h)

/-- Witness for C4: a score-88 tie between an ARG and an ESP candidate for
an ARG player accepts only the ARG candidate. -/
theorem c4_witness :
    (({ player_name := "Juan Martin Arg", player_country := "ARG",
        gender := "M" } : RawEntry)
      ∈ match_player_to_entries (fun a b => if a == b then 100 else 88)
        ({ name := "Juan Martin", gender := "M", country_code := "ARG" } : Player)
        [({ player_name := "Juan Martin Arg", player_country := "ARG",
            gender := "M" } : RawEntry),
         ({ player_name := "Juan Martin Esp", player_country := "ESP",
            gender := "M" } : RawEntry)]
        FUZZY_MATCH_THRESHOLD) ∧
    (({ player_name := "Juan Martin Esp", player_country := "ESP",
        gender := "M" } : RawEntry)
      ∉ match_player_to_entries (fun a b => if a == b then 100 else 88)
        ({ name := "Juan Martin", gender := "M", country_code := "ARG" } : Player)
        [({ player_name := "Juan Martin Arg", player_country := "ARG",
            gender := "M" } : RawEntry),
         ({ player_name := "Juan Martin Esp", player_country := "ESP",
            gender := "M" } : RawEntry)]
        FUZZY_MATCH_THRESHOLD) := by
  constructor
  · exact ((c4_fuzzy_thresholds (fun a b => if a == b then 100 else 88)
      (fun s => by simp) _ _ _ (by simp) (Or.inr (Or.inr rfl))).2
      (by decide) (by decide)).mpr ⟨by decide, by decide, rfl⟩
  · intro hmm
    have := ((c4_fuzzy_thresholds (fun a b => if a == b then 100 else 88)
      (fun s => by simp) _ _ _ (by simp) (Or.inr (Or.inr rfl))).2
      (by decide) (by decide)).mp hmm
    exact absurd this.2.2 (by decide)

theorem collision_official (d : SiteEntry) (e : RawEntry) (t s w : String)
    (hdt : d.tournament = t) (hds : d.sectionName = s) (hdw : d.week = w)
    (hdwd : d.withdrawn = false) (hewd : e.withdrawn = true)
    (hs : e.source = "OfficialDraw") (hr : e.reason ≠ "") :
    (collisionUpdate [d] e t s w).map (fun r => (r.withdrawn, r.reason))
      = [(true, e.reason)] := by
  subst hdt hds hdw
  have ho : (e.source == "OfficialDraw" && e.reason != "") = true := by
    simp [hs, hr]
  by_cases hwt : e.withdrawal_type = ""
  · simp [collisionUpdate, hewd, patchWithdraw, patchOfficial, hdwd, ho, hwt]
  · simp [collisionUpdate, hewd, patchWithdraw, patchOfficial, hdwd, ho, hwt]

/-- C6: abbreviated-name expansion plus reconciliation end to end — a
non-authoritative full-name entry "Aleksandar Vukic" for tournament X plus
an authoritative OfficialDraw withdrawal "A. Vukic" with reason "shoulder"
for X (same section and week) yields the OfficialDraw record renamed to
"Aleksandar Vukic" via the (initial, surname, gender) reverse lookup, and
the deduplicated merged record for X is withdrawn with reason "shoulder". -/
theorem c6_expansion_end_to_end (X wk sct tier1 tier2 g src wt : String)
    (mergeMap : List (String × String)) (hS : src ≠ "OfficialDraw") :
    ((attach_draw_reasons [vukicFull X tier1 wk sct src g,
        vukicDraw X tier2 wk sct g wt]).map (·.player_name)
      = ["Aleksandar Vukic", "Aleksandar Vukic"]) ∧
    ((dedup_entries mergeMap (attach_draw_reasons [vukicFull X tier1 wk sct src g,
        vukicDraw X tier2 wk sct g wt])).map (fun r => (r.withdrawn, r.reason))
      = [(true, "shoulder")]) := by
  have hsrc : (src == "OfficialDraw") = false := beq_eq_false_iff_ne.mpr hS
  have hsrcn : (src != "OfficialDraw") = true := by simp [bne, hsrc]
  have hatt : attach_draw_reasons [vukicFull X tier1 wk sct src g,
        vukicDraw X tier2 wk sct g wt]
      = [vukicFull X tier1 wk sct src g,
         { vukicDraw X tier2 wk sct g wt with player_name := "Aleksandar Vukic" }] := by
    simp [attach_draw_reasons, hsrc, hsrcn, attachReason, expandDrawName, drawKeyOf,
      matchAbbrev, fullNameLookup, fullNameKeys, hasAbbrevStart, List.filter, splitWsL,
      isWs, isAsciiUpper, isAsciiLower, toLowerStr, pyStrip, pyStripL, joinSpace,
      lowerChar, upperChar, tr, lowerPairs, upperPairs, List.find?, vukicFull, vukicDraw]
  rw [hatt]
  refine ⟨rfl, ?_⟩
  rw [dedup_pair mergeMap (vukicFull X tier1 wk sct src g)
      ({ vukicDraw X tier2 wk sct g wt with player_name := "Aleksandar Vukic" })
      (normalize_tournament_name X) sct
      (entryWeekVal mergeMap (vukicFull X tier1 wk sct src g)) rfl rfl]
  exact collision_official _ _ _ _ _ rfl rfl rfl rfl rfl rfl (by simp [vukicDraw])

/-- Witness for C6 at a concrete instantiation of the scenario. -/
theorem c6_witness :
    ((attach_draw_reasons [vukicFull "Doha" "ATP 500" "Feb 16" "Main Draw" "TickTock" "M",
        vukicDraw "Doha" "ATP 500" "Feb 16" "Main Draw" "M" ""]).map (·.player_name)
      = ["Aleksandar Vukic", "Aleksandar Vukic"]) ∧
    ((dedup_entries [] (attach_draw_reasons
        [vukicFull "Doha" "ATP 500" "Feb 16" "Main Draw" "TickTock" "M",
         vukicDraw "Doha" "ATP 500" "Feb 16" "Main Draw" "M" ""])).map
        (fun r => (r.withdrawn, r.reason))
      = [(true, "shoulder")]) :=
  c6_expansion_end_to_end "Doha" "Feb 16" "Main Draw" "ATP 500" "ATP 500" "M" "TickTock" "" []
    (by decide)

theorem tr_cases (T : List (Char × Char)) (c : Char) :
    tr T c = c ∨ ∃ p ∈ T, tr T c = p.2 := by
  rw [tr]
  cases h : T.find? (fun p => p.1 == c) with
  | none => exact Or.inl rfl
  | some p => exact Or.inr ⟨p, List.mem_of_find?_eq_some h, rfl⟩

theorem uP_fix_lower_images :
    (lowerPairs.all (fun q => tr unidecodePairs q.2 == q.2)) = true := by decide

theorem uP_fix_own_lowered :
    (unidecodePairs.all (fun p => tr unidecodePairs (lowerChar p.2) == lowerChar p.2)) = true := by
  decide

theorem lower_fix_own_images :
    (lowerPairs.all (fun q => tr lowerPairs q.2 == q.2)) = true := by decide

theorem uP_images_not_comma :
    (unidecodePairs.all (fun p => !(p.2 == ','))) = true := by decide

theorem lower_images_not_comma :
    (lowerPairs.all (fun q => !(q.2 == ','))) = true := by decide

theorem tr_then_lower_ufixed (c : Char) :
    tr unidecodePairs (lowerChar (tr unidecodePairs c)) = lowerChar (tr unidecodePairs c) := by
  rcases tr_cases unidecodePairs c with h | ⟨p, hp, h⟩
  · rw [h]
    rcases tr_cases lowerPairs c with h2 | ⟨q, hq, h2⟩
    · have h3 : lowerChar c = c := h2
      rw [h3]
      exact h
    · have h3 : lowerChar c = q.2 := h2
      rw [h3]
      exact beq_iff_eq.mp (List.all_eq_true.mp uP_fix_lower_images q hq)
  · rw [h]
    exact beq_iff_eq.mp (List.all_eq_true.mp uP_fix_own_lowered p hp)

theorem lowerChar_idem (c : Char) : lowerChar (lowerChar c) = lowerChar c := by
  rcases tr_cases lowerPairs c with h | ⟨q, hq, h⟩
  · have h3 : lowerChar c = c := h
    rw [h3, h3]
  · have h3 : lowerChar c = q.2 := h
    rw [h3]
    exact beq_iff_eq.mp (List.all_eq_true.mp lower_fix_own_images q hq)

theorem lowerChar_comma (c : Char) (h : lowerChar c = ',') : c = ',' := by
  rcases tr_cases lowerPairs c with h2 | ⟨q, hq, h2⟩
  · have h3 : lowerChar c = c := h2
    rw [← h, h3]
  · have h3 : lowerChar c = q.2 := h2
    rw [h3] at h
    have := List.all_eq_true.mp lower_images_not_comma q hq
    rw [h] at this
    simp at this

theorem tr_uP_comma (c : Char) (h : tr unidecodePairs c = ',') : c = ',' := by
  rcases tr_cases unidecodePairs c with h2 | ⟨p, hp, h2⟩
  · rw [← h2, h]
  · rw [h2] at h
    have := List.all_eq_true.mp uP_images_not_comma p hp
    rw [h] at this
    simp at this


theorem splitWsL_ws (c : Char) (rest : List Char) (hw : isWs c = true) :
    splitWsL (c :: rest) = splitWsL rest := by
  rw [splitWsL.eq_def]
  simp only [hw, if_true]

theorem splitWsL_tok_ws (c d : Char) (r : List Char) (hw : isWs c = false)
    (hwd : isWs d = true) : splitWsL (c :: d :: r) = [c] :: splitWsL (d :: r) := by
  rw [splitWsL.eq_def]
  simp only [hw, hwd, Bool.false_eq_true, if_false, if_true]

theorem splitWsL_tok_tok (c d : Char) (r : List Char) (hw : isWs c = false)
    (hwd : isWs d = false) :
    splitWsL (c :: d :: r) = match splitWsL (d :: r) with
      | t :: ts => (c :: t) :: ts
      | [] => [[c]] := by
  rw [splitWsL.eq_def]
  simp only [hw, hwd, Bool.false_eq_true, if_false]

theorem splitWsL_single (c : Char) (hw : isWs c = false) : splitWsL [c] = [[c]] := by
  rw [splitWsL.eq_def]
  simp only [hw, Bool.false_eq_true, if_false]

theorem splitWsL_tokens (l : List Char) :
    ∀ t ∈ splitWsL l, t ≠ [] ∧ ∀ c ∈ t, isWs c = false ∧ c ∈ l := by
  induction l with
  | nil => intro t ht; cases ht
  | cons c rest ih =>
    intro t ht
    by_cases hw : isWs c
    · rw [splitWsL_ws c rest hw] at ht
      obtain ⟨h1, h2⟩ := ih t ht
      exact ⟨h1, fun d hd => ⟨(h2 d hd).1, List.mem_cons_of_mem _ (h2 d hd).2⟩⟩
    · rw [Bool.not_eq_true] at hw
      cases rest with
      | nil =>
        rw [splitWsL_single c hw, List.mem_singleton] at ht
        subst ht
        refine ⟨by simp, fun d hd => ?_⟩
        rw [List.mem_singleton] at hd
        subst hd
        exact ⟨hw, by simp⟩
      | cons d rest2 =>
        by_cases hwd : isWs d
        · rw [splitWsL_tok_ws c d rest2 hw hwd] at ht
          rcases List.mem_cons.mp ht with h | h
          · subst h
            refine ⟨by simp, fun e he => ?_⟩
            rw [List.mem_singleton] at he
            subst he
            exact ⟨hw, by simp⟩
          · obtain ⟨h1, h2⟩ := ih t h
            exact ⟨h1, fun e he => ⟨(h2 e he).1, List.mem_cons_of_mem _ (h2 e he).2⟩⟩
        · rw [Bool.not_eq_true] at hwd
          rw [splitWsL_tok_tok c d rest2 hw hwd] at ht
          cases hsp : splitWsL (d :: rest2) with
          | nil =>
            rw [hsp] at ht
            simp only [List.mem_singleton] at ht
            subst ht
            refine ⟨by simp, fun e he => ?_⟩
            rw [List.mem_singleton] at he
            subst he
            exact ⟨hw, by simp⟩
          | cons t0 ts =>
            rw [hsp] at ht
            simp only [] at ht
            rcases List.mem_cons.mp ht with h | h
            · subst h
              have ht0 := ih t0 (by rw [hsp]; exact List.mem_cons_self _ _)
              refine ⟨by simp, fun e he => ?_⟩
              rcases List.mem_cons.mp he with he1 | he2
              · subst he1
                exact ⟨hw, by simp⟩
              · exact ⟨(ht0.2 e he2).1, List.mem_cons_of_mem _ (ht0.2 e he2).2⟩
            · obtain ⟨h1, h2⟩ := ih t (by rw [hsp]; exact List.mem_cons_of_mem _ h)
              exact ⟨h1, fun e he => ⟨(h2 e he).1, List.mem_cons_of_mem _ (h2 e he).2⟩⟩

theorem splitWsL_token_single (t : List Char) (hne : t ≠ [])
    (hws : ∀ c ∈ t, isWs c = false) : splitWsL t = [t] := by
  induction t with
  | nil => exact absurd rfl hne
  | cons c rest ih =>
    have hwc : isWs c = false := hws c (by simp)
    cases rest with
    | nil => exact splitWsL_single c hwc
    | cons d rest2 =>
      have hwd : isWs d = false := hws d (by simp)
      have ih2 := ih (by simp) (fun e he => hws e (List.mem_cons_of_mem _ he))
      rw [splitWsL_tok_tok c d rest2 hwc hwd, ih2]

theorem splitWsL_token_append (t r : List Char) (hne : t ≠ [])
    (hws : ∀ c ∈ t, isWs c = false) :
    splitWsL (t ++ ' ' :: r) = t :: splitWsL r := by
  induction t with
  | nil => exact absurd rfl hne
  | cons c rest ih =>
    have hwc : isWs c = false := hws c (by simp)
    cases rest with
    | nil =>
      rw [List.cons_append, List.nil_append]
      rw [splitWsL_tok_ws c ' ' r hwc (by decide), splitWsL_ws ' ' r (by decide)]
    | cons d rest2 =>
      have hwd : isWs d = false := hws d (by simp)
      have ih2 := ih (by simp) (fun e he => hws e (List.mem_cons_of_mem _ he))
      rw [List.cons_append] at ih2
      rw [List.cons_append, List.cons_append]
      rw [splitWsL_tok_tok c d (rest2 ++ ' ' :: r) hwc hwd, ih2]

theorem splitWsL_joinSpace (ts : List (List Char))
    (h : ∀ t ∈ ts, t ≠ [] ∧ ∀ c ∈ t, isWs c = false) :
    splitWsL (joinSpace ts) = ts := by
  induction ts with
  | nil => rfl
  | cons t ts2 ih =>
    cases ts2 with
    | nil =>
      rw [joinSpace]
      exact splitWsL_token_single t (h t (by simp)).1 (fun c hc => (h t (by simp)).2 c hc)
    | cons t2 ts3 =>
      rw [joinSpace, splitWsL_token_append t _ (h t (by simp)).1
        (fun c hc => (h t (by simp)).2 c hc)]
      rw [ih (fun u hu => h u (List.mem_cons_of_mem _ hu))]

theorem joinSpace_mem (ts : List (List Char)) (c : Char) (hc : c ∈ joinSpace ts) :
    c = ' ' ∨ ∃ t ∈ ts, c ∈ t := by
  induction ts with
  | nil => cases hc
  | cons t ts2 ih =>
    cases ts2 with
    | nil => exact Or.inr ⟨t, by simp, hc⟩
    | cons t2 ts3 =>
      rw [joinSpace] at hc
      rcases List.mem_append.mp hc with h | h
      · exact Or.inr ⟨t, by simp, h⟩
      · rcases List.mem_cons.mp h with h2 | h2
        · exact Or.inl h2
        · rcases ih h2 with h3 | ⟨u, hu, hcu⟩
          · exact Or.inl h3
          · exact Or.inr ⟨u, List.mem_cons_of_mem _ hu, hcu⟩

theorem replaceHyphApos_mem (l : List Char) (c : Char) (hc : c ∈ replaceHyphApos l) :
    c = ' ' ∨ (c ∈ l ∧ ¬c = '-' ∧ ¬c = '\'' ∧ ¬c = '’') := by
  induction l with
  | nil => cases hc
  | cons a tl ih =>
    rw [replaceHyphApos] at hc
    by_cases ha : a == '-'
    · rw [if_pos ha] at hc
      rcases List.mem_cons.mp hc with h | h
      · exact Or.inl h
      · rcases ih h with h2 | ⟨h2, h3⟩
        · exact Or.inl h2
        · exact Or.inr ⟨List.mem_cons_of_mem _ h2, h3⟩
    · rw [if_neg ha] at hc
      by_cases hap : a == '\'' || a == '’'
      · rw [if_pos hap] at hc
        rcases ih hc with h2 | ⟨h2, h3⟩
        · exact Or.inl h2
        · exact Or.inr ⟨List.mem_cons_of_mem _ h2, h3⟩
      · rw [if_neg hap] at hc
        rcases List.mem_cons.mp hc with h | h
        · subst h
          simp only [beq_iff_eq] at ha
          simp only [Bool.or_eq_true, beq_iff_eq, not_or] at hap
          exact Or.inr ⟨List.mem_cons_self _ _, ha, hap.1, hap.2⟩
        · rcases ih h with h2 | ⟨h2, h3⟩
          · exact Or.inl h2
          · exact Or.inr ⟨List.mem_cons_of_mem _ h2, h3⟩

theorem replaceHyphApos_id (l : List Char)
    (h : ∀ c ∈ l, ¬c = '-' ∧ ¬c = '\'' ∧ ¬c = '’') : replaceHyphApos l = l := by
  induction l with
  | nil => rfl
  | cons a tl ih =>
    obtain ⟨h1, h2, h3⟩ := h a (by simp)
    rw [replaceHyphApos, if_neg (by simp [h1]), if_neg (by simp [h2, h3])]
    rw [ih (fun c hc => h c (List.mem_cons_of_mem _ hc))]


theorem stringMk_data (s : String) : String.mk s.data = s := by
  cases s
  rfl

theorem map_id_of_fixed (f : Char → Char) (l : List Char) (h : ∀ c ∈ l, f c = c) :
    l.map f = l := by
  induction l with
  | nil => rfl
  | cons a tl ih =>
    rw [List.map_cons, h a (by simp), ih (fun c hc => h c (List.mem_cons_of_mem _ hc))]

theorem contains_comma_false (l : List Char) (h : ∀ c ∈ l, ¬ c = ',') :
    l.contains ',' = false := by
  rw [Bool.eq_false_iff]
  intro hc
  exact h ',' (List.elem_iff.mp hc) rfl

theorem pyStripL_subset (l : List Char) : ∀ c ∈ pyStripL l, c ∈ l := by
  intro c hc
  rw [pyStripL, List.mem_reverse] at hc
  have h1 := (List.dropWhile_sublist isWs).subset hc
  rw [List.mem_reverse] at h1
  exact (List.dropWhile_sublist isWs).subset h1

theorem splitFirstComma_fst_mem (l : List Char) :
    ∀ c ∈ (splitFirstComma l).1, c ∈ l ∧ ¬c = ',' := by
  induction l with
  | nil => intro c hc; cases hc
  | cons a tl ih =>
    intro c hc
    rw [splitFirstComma] at hc
    by_cases ha : a == ','
    · rw [if_pos ha] at hc
      cases hc
    · rw [if_neg ha] at hc
      simp only [] at hc
      rcases List.mem_cons.mp hc with h | h
      · subst h
        simp only [beq_iff_eq] at ha
        exact ⟨List.mem_cons_self _ _, ha⟩
      · obtain ⟨h1, h2⟩ := ih c h
        exact ⟨List.mem_cons_of_mem _ h1, h2⟩

theorem splitFirstComma_snd_mem (l : List Char)
    (h : l.countP (fun c => c == ',') ≤ 1) :
    ∀ c ∈ (splitFirstComma l).2, c ∈ l ∧ ¬c = ',' := by
  induction l with
  | nil => intro c hc; cases hc
  | cons a tl ih =>
    intro c hc
    rw [splitFirstComma] at hc
    by_cases ha : a == ','
    · rw [if_pos ha] at hc
      simp only [] at hc
      rw [List.countP_cons_of_pos (fun c => c == ',') tl ha] at h
      have hz : tl.countP (fun c => c == ',') = 0 := by omega
      have := List.countP_eq_zero.mp hz c hc
      simp only [beq_iff_eq] at this
      exact ⟨List.mem_cons_of_mem _ hc, this⟩
    · rw [if_neg ha] at hc
      simp only [] at hc
      rw [List.countP_cons_of_neg (fun c => c == ',') tl (by simpa using ha)] at h
      obtain ⟨h1, h2⟩ := ih h c hc
      exact ⟨List.mem_cons_of_mem _ h1, h2⟩

/-- C7 (amended): `normalize_name` is idempotent on every input containing
at most one comma.  (With two or more commas the "Last, First" swap leaves
a comma in its output, and a second application swaps again.) -/
theorem c7_amended_idempotent (x : String) (h : countComma x ≤ 1) :
    normalize_name (normalize_name x) = normalize_name x := by
  by_cases hx : x = ""
  · rw [hx]
    rfl
  · have hy : normalize_name x = String.mk (joinSpace (splitWsL (replaceHyphApos
        (((if x.data.contains ',' then
            pyStripL (splitFirstComma x.data).2 ++ ' ' :: pyStripL (splitFirstComma x.data).1
          else x.data).map (tr unidecodePairs)).map lowerChar)))) := by
      rw [normalize_name, if_neg hx]
    have hn1comma : ∀ c ∈ (if x.data.contains ',' then
        pyStripL (splitFirstComma x.data).2 ++ ' ' :: pyStripL (splitFirstComma x.data).1
        else x.data), ¬ c = ',' := by
      by_cases hc : x.data.contains ','
      · rw [if_pos hc]
        intro c hcm
        rcases List.mem_append.mp hcm with hm | hm
        · exact (splitFirstComma_snd_mem x.data h (c := c)
            (pyStripL_subset _ c hm)).2
        · rcases List.mem_cons.mp hm with hm2 | hm2
          · subst hm2
            decide
          · exact (splitFirstComma_fst_mem x.data c (pyStripL_subset _ c hm2)).2
      · rw [if_neg hc]
        intro c hcm heq
        subst heq
        exact hc (List.elem_iff.mpr hcm)
    have hQ : ∀ c ∈ (normalize_name x).data,
        tr unidecodePairs c = c ∧ lowerChar c = c ∧
        ¬c = '-' ∧ ¬c = '\'' ∧ ¬c = '’' ∧ ¬c = ',' := by
      intro c hcm
      rw [hy] at hcm
      rcases joinSpace_mem _ c hcm with hsp | ⟨t, ht, hct⟩
      · subst hsp
        refine ⟨by decide, by decide, by decide, by decide, by decide, by decide⟩
      · have hz := ((splitWsL_tokens _ t ht).2 c hct).2
        rcases replaceHyphApos_mem _ c hz with hsp | ⟨hmem, hh, ha1, ha2⟩
        · subst hsp
          refine ⟨by decide, by decide, by decide, by decide, by decide, by decide⟩
        · rw [List.map_map] at hmem
          obtain ⟨c0, hc0, hceq⟩ := List.mem_map.mp hmem
          simp only [Function.comp] at hceq
          subst hceq
          refine ⟨tr_then_lower_ufixed c0, lowerChar_idem _, hh, ha1, ha2, ?_⟩
          intro hcomma
          exact hn1comma c0 hc0 (tr_uP_comma c0 (lowerChar_comma _ hcomma))
    by_cases hy0 : normalize_name x = ""
    · rw [hy0]
      rfl
    · have hcf : (normalize_name x).data.contains ',' = false :=
        contains_comma_false _ (fun c hc => (hQ c hc).2.2.2.2.2)
      have hmap1 : (normalize_name x).data.map (tr unidecodePairs) = (normalize_name x).data :=
        map_id_of_fixed _ _ (fun c hc => (hQ c hc).1)
      have hmap2 : (normalize_name x).data.map lowerChar = (normalize_name x).data :=
        map_id_of_fixed _ _ (fun c hc => (hQ c hc).2.1)
      have hrha : replaceHyphApos (normalize_name x).data = (normalize_name x).data :=
        replaceHyphApos_id _ (fun c hc =>
          ⟨(hQ c hc).2.2.1, (hQ c hc).2.2.2.1, (hQ c hc).2.2.2.2.1⟩)
      have hdata : (normalize_name x).data = joinSpace (splitWsL (replaceHyphApos
          (((if x.data.contains ',' then
              pyStripL (splitFirstComma x.data).2 ++ ' ' :: pyStripL (splitFirstComma x.data).1
            else x.data).map (tr unidecodePairs)).map lowerChar))) := by
        rw [hy]
      have hsplit : splitWsL (normalize_name x).data = splitWsL (replaceHyphApos
          (((if x.data.contains ',' then
              pyStripL (splitFirstComma x.data).2 ++ ' ' :: pyStripL (splitFirstComma x.data).1
            else x.data).map (tr unidecodePairs)).map lowerChar)) := by
        rw [hdata]
        exact splitWsL_joinSpace _ (fun t ht =>
          ⟨(splitWsL_tokens _ t ht).1, fun c hc => ((splitWsL_tokens _ t ht).2 c hc).1⟩)
      rw [normalize_name, if_neg hy0]
      simp only [hcf, Bool.false_eq_true, if_false, hmap1, hmap2, hrha, hsplit]
      rw [← hdata, stringMk_data]

/-- C7 is refuted as stated: on an input with two commas the "Last, First"
swap leaves a comma in the output, so a second normalization swaps again
and the results differ. -/
theorem c7_counterexample :
    normalize_name "A,B,C" = "b,c a" ∧
    normalize_name (normalize_name "A,B,C") = "c a b" ∧
    normalize_name (normalize_name "A,B,C") ≠ normalize_name "A,B,C" :=
  ⟨rfl, rfl, by decide⟩

/-- Witness for the amended C7 at "Djokovic, Novak" (one comma). -/
theorem c7_witness :
    countComma "Djokovic, Novak" ≤ 1 ∧
    normalize_name (normalize_name "Djokovic, Novak") = normalize_name "Djokovic, Novak" :=
  ⟨by decide, c7_amended_idempotent "Djokovic, Novak" (by decide)⟩


theorem wkLE_iff (a b : Nat × String) :
    wkLE a b = true ↔ (a.1 < b.1 ∨ (a.1 = b.1 ∧ a.2 ≤ b.2)) := by
  rw [wkLE]
  simp [Bool.or_eq_true, decide_eq_true_eq, Bool.and_eq_true, beq_iff_eq]

theorem wkLE_trans : ∀ (a b c : Nat × String), wkLE a b → wkLE b c → wkLE a c := by
  intro a b c hab hbc
  rw [wkLE_iff] at hab hbc ⊢
  rcases hab with h1 | ⟨h1, h1s⟩ <;> rcases hbc with h2 | ⟨h2, h2s⟩
  · exact Or.inl (h1.trans h2)
  · exact Or.inl (h2 ▸ h1)
  · exact Or.inl (h1 ▸ h2)
  · exact Or.inr ⟨h1.trans h2, h1s.trans h2s⟩

theorem wkLE_total : ∀ (a b : Nat × String), wkLE a b || wkLE b a := by
  intro a b
  rw [Bool.or_eq_true, wkLE_iff, wkLE_iff]
  rcases Nat.lt_trichotomy a.1 b.1 with h | h | h
  · exact Or.inl (Or.inl h)
  · rcases le_total a.2 b.2 with hs | hs
    · exact Or.inl (Or.inr ⟨h, hs⟩)
    · exact Or.inr (Or.inr ⟨h.symm, hs⟩)
  · exact Or.inr (Or.inl h)

theorem sweepGo_flat (g : WeekGroup) (tl : List (Nat × String)) :
    (sweepGo g tl).flatMap (fun G => G.first :: G.rest)
      = (g.first :: g.rest) ++ tl.map Prod.snd := by
  induction tl generalizing g with
  | nil => simp [sweepGo]
  | cons p tl ih =>
    obtain ⟨k, w⟩ := p
    rw [sweepGo]
    by_cases hk : k ≤ g.anchor + 5
    · rw [if_pos hk, ih]
      simp
    · rw [if_neg hk]
      rw [List.flatMap_cons, ih]
      simp

theorem sweep_flat (s : List (Nat × String)) :
    (sweep s).flatMap (fun G => G.first :: G.rest) = s.map Prod.snd := by
  cases s with
  | nil => rfl
  | cons p tl =>
    obtain ⟨k, w⟩ := p
    rw [sweep, sweepGo_flat]
    simp

theorem sweepGo_spec (tl : List (Nat × String)) (g : WeekGroup)
    (hsorted : tl.Pairwise (fun a b => wkLE a b = true))
    (hge : ∀ p ∈ tl, g.anchor ≤ p.1)
    (hkeys : ∀ p ∈ tl, weekKeyOpt p.2 = some p.1)
    (hfirst : weekKeyOpt g.first = some g.anchor)
    (hrest : ∀ w ∈ g.rest, ∃ k, weekKeyOpt w = some k ∧ g.anchor ≤ k ∧ k ≤ g.anchor + 5) :
    (∀ G ∈ sweepGo g tl, weekKeyOpt G.first = some G.anchor ∧ g.anchor ≤ G.anchor ∧
      ∀ w ∈ G.first :: G.rest, ∃ k, weekKeyOpt w = some k ∧ G.anchor ≤ k ∧ k ≤ G.anchor + 5) ∧
    (sweepGo g tl).Pairwise (fun G G' => G.anchor + 5 < G'.anchor) := by
  induction tl generalizing g with
  | nil =>
    refine ⟨?_, by simp [sweepGo]⟩
    intro G hG
    rw [sweepGo, List.mem_singleton] at hG
    subst hG
    refine ⟨hfirst, le_refl _, ?_⟩
    intro w hw
    rcases List.mem_cons.mp hw with h | h
    · subst h
      exact ⟨G.anchor, hfirst, le_refl _, by omega⟩
    · exact hrest w h
  | cons p tl ih =>
    obtain ⟨k, w⟩ := p
    have htl : tl.Pairwise (fun a b => wkLE a b = true) := hsorted.of_cons
    have hhead : ∀ q ∈ tl, wkLE (k, w) q = true := (List.pairwise_cons.mp hsorted).1
    have hgetl : ∀ q ∈ tl, k ≤ q.1 := by
      intro q hq
      rcases (wkLE_iff _ _).mp (hhead q hq) with h | ⟨h, _⟩
      · exact le_of_lt h
      · exact le_of_eq h
    rw [sweepGo]
    by_cases hk : k ≤ g.anchor + 5
    · rw [if_pos hk]
      exact ih ⟨g.anchor, g.first, g.rest ++ [w]⟩ htl
        (fun q hq => hge q (List.mem_cons_of_mem _ hq))
        (fun q hq => hkeys q (List.mem_cons_of_mem _ hq))
        hfirst
        (by
          intro u hu
          rcases List.mem_append.mp hu with h | h
          · exact hrest u h
          · rw [List.mem_singleton] at h
            subst h
            exact ⟨k, hkeys (k, u) (List.mem_cons_self _ _),
              hge (k, u) (List.mem_cons_self _ _), hk⟩)
    · rw [if_neg hk]
      have hik := ih ⟨k, w, []⟩ htl hgetl
        (fun q hq => hkeys q (List.mem_cons_of_mem _ hq))
        (hkeys (k, w) (List.mem_cons_self _ _))
        (by intro u hu; cases hu)
      constructor
      · intro G hG
        rcases List.mem_cons.mp hG with h | h
        · subst h
          refine ⟨hfirst, le_refl _, ?_⟩
          intro u hu
          rcases List.mem_cons.mp hu with h2 | h2
          · subst h2
            exact ⟨G.anchor, hfirst, le_refl _, by omega⟩
          · exact hrest u h2
        · obtain ⟨h1, h2, h3⟩ := hik.1 G h
          have h4 : k ≤ G.anchor := h2
          exact ⟨h1, le_trans (hge (k, w) (List.mem_cons_self _ _)) h4, h3⟩
      · rw [List.pairwise_cons]
        refine ⟨?_, hik.2⟩
        intro G hG
        have h4 : k ≤ G.anchor := (hik.1 G hG).2.1
        omega

theorem sweep_spec (s : List (Nat × String))
    (hsorted : s.Pairwise (fun a b => wkLE a b = true))
    (hkeys : ∀ p ∈ s, weekKeyOpt p.2 = some p.1) :
    (∀ G ∈ sweep s, weekKeyOpt G.first = some G.anchor ∧
      ∀ w ∈ G.first :: G.rest, ∃ k, weekKeyOpt w = some k ∧ G.anchor ≤ k ∧ k ≤ G.anchor + 5) ∧
    (sweep s).Pairwise (fun G G' => G.anchor + 5 < G'.anchor) := by
  cases s with
  | nil =>
    refine ⟨?_, by simp [sweep]⟩
    intro G hG
    cases hG
  | cons p tl =>
    obtain ⟨k, w⟩ := p
    have hhead : ∀ q ∈ tl, wkLE (k, w) q = true := (List.pairwise_cons.mp hsorted).1
    have hspec := sweepGo_spec tl ⟨k, w, []⟩ hsorted.of_cons
      (by
        intro q hq
        rcases (wkLE_iff _ _).mp (hhead q hq) with h | ⟨h, _⟩
        · exact le_of_lt h
        · exact le_of_eq h)
      (fun q hq => hkeys q (List.mem_cons_of_mem _ hq))
      (hkeys (k, w) (List.mem_cons_self _ _))
      (by intro u hu; cases hu)
    exact ⟨fun G hG => ⟨(hspec.1 G hG).1, (hspec.1 G hG).2.2⟩, hspec.2⟩

end Tennis

namespace Tennis

theorem wkLE_total' (a b : Nat × String) : wkLE a b = true ∨ wkLE b a = true :=
  (Bool.or_eq_true _ _).mp (wkLE_total a b)

theorem pairwise_mem_cases {α : Type} {R : α → α → Prop} {x y : α} :
    ∀ {l : List α}, l.Pairwise R → x ∈ l → y ∈ l → x = y ∨ R x y ∨ R y x := by
  intro l
  induction l with
  | nil => intro _ hx _; cases hx
  | cons a tl ih =>
    intro hp hx hy
    rcases List.mem_cons.mp hx with hx1 | hx1 <;> rcases List.mem_cons.mp hy with hy1 | hy1
    · exact Or.inl (hx1.trans hy1.symm)
    · subst hx1
      exact Or.inr (Or.inl ((List.pairwise_cons.mp hp).1 y hy1))
    · subst hy1
      exact Or.inr (Or.inr ((List.pairwise_cons.mp hp).1 x hx1))
    · exact ih hp.of_cons hx1 hy1

theorem find?_map_fst (c : String) (labels : List String) (x : String) :
    (labels.map (fun l => (l, c))).find? (fun p => p.1 == x)
      = if x ∈ labels then some (x, c) else none := by
  induction labels with
  | nil => simp
  | cons a tl ih =>
    rw [List.map_cons]
    by_cases h : a = x
    · rw [List.find?_cons_of_pos _ (by simp [h]), h, if_pos (List.mem_cons_self _ _)]
    · rw [List.find?_cons_of_neg _ (by simp [h]), ih]
      by_cases hx : x ∈ tl
      · rw [if_pos hx, if_pos (List.mem_cons_of_mem _ hx)]
      · rw [if_neg hx, if_neg (fun hc => by
          rcases List.mem_cons.mp hc with h1 | h1
          · exact h h1.symm
          · exact hx h1)]

theorem find?_map_diag (labels : List String) (x : String) :
    (labels.map (fun u => (u, u))).find? (fun p => p.1 == x)
      = if x ∈ labels then some (x, x) else none := by
  induction labels with
  | nil => simp
  | cons a tl ih =>
    rw [List.map_cons]
    by_cases h : a = x
    · rw [List.find?_cons_of_pos _ (by simp [h]), h, if_pos (List.mem_cons_self _ _)]
    · rw [List.find?_cons_of_neg _ (by simp [h]), ih]
      by_cases hx : x ∈ tl
      · rw [if_pos hx, if_pos (List.mem_cons_of_mem _ hx)]
      · rw [if_neg hx, if_neg (fun hc => by
          rcases List.mem_cons.mp hc with h1 | h1
          · exact h h1.symm
          · exact hx h1)]

theorem find?_groupPairs (groups : List WeekGroup) (x : String)
    (hnd : (groups.flatMap (fun G => G.first :: G.rest)).Nodup)
    (G : WeekGroup) (hG : G ∈ groups) (hx : x ∈ G.first :: G.rest) :
    (groups.flatMap (fun g => (g.first :: g.rest).map (fun l => (l, g.first)))).find?
      (fun p => p.1 == x) = some (x, G.first) := by
  induction groups with
  | nil => cases hG
  | cons g0 gs ih =>
    rw [List.flatMap_cons, List.find?_append, find?_map_fst g0.first]
    rw [List.flatMap_cons, List.nodup_append] at hnd
    rcases List.mem_cons.mp hG with h | h
    · subst h
      rw [if_pos hx]
      rfl
    · have hxgs : x ∈ gs.flatMap (fun g => g.first :: g.rest) :=
        List.mem_flatMap.mpr ⟨G, h, hx⟩
      have hnx : x ∉ g0.first :: g0.rest := fun hc => hnd.2.2 hc hxgs
      rw [if_neg hnx, Option.none_or]
      exact ih hnd.2.1 h

theorem mcwSorted_perm (weeks : List String) : (mcwSorted weeks).Perm (mcwDated weeks) :=
  List.perm_insertionSort _ _

theorem mcwSorted_keys (weeks : List String) :
    ∀ p ∈ mcwSorted weeks, weekKeyOpt p.2 = some p.1 := by
  intro p hp
  have hp' : p ∈ mcwDated weeks := (mcwSorted_perm weeks).mem_iff.mp hp
  unfold mcwDated at hp'
  obtain ⟨w, hw, hfw⟩ := List.mem_filterMap.mp hp'
  cases hk : weekKeyOpt w with
  | none => rw [hk] at hfw; cases hfw
  | some k =>
    rw [hk, Option.map_some'] at hfw
    cases hfw
    exact hk

theorem mcwSorted_sorted (weeks : List String) :
    (mcwSorted weeks).Pairwise (fun a b => wkLE a b = true) := by
  haveI h1 : IsTrans (Nat × String) (fun a b => wkLE a b = true) := ⟨wkLE_trans⟩
  haveI h2 : IsTotal (Nat × String) (fun a b => wkLE a b = true) := ⟨wkLE_total'⟩
  exact List.sorted_insertionSort _ _

theorem mcwDated_map_snd (weeks : List String) :
    (mcwDated weeks).map Prod.snd = weeks.filter (fun w => (weekKeyOpt w).isSome) := by
  unfold mcwDated
  induction weeks with
  | nil => rfl
  | cons w tl ih =>
    rw [List.filterMap_cons, List.filter_cons]
    cases hk : weekKeyOpt w with
    | none => simp [hk, ih]
    | some k => simp [hk, ih]

theorem mcw_labels_nodup (weeks : List String) (hnd : weeks.Nodup) :
    ((sweep (mcwSorted weeks)).flatMap (fun G => G.first :: G.rest)).Nodup := by
  rw [sweep_flat]
  rw [((mcwSorted_perm weeks).map Prod.snd).nodup_iff]
  rw [mcwDated_map_snd]
  exact hnd.filter _

theorem mergeMapGet_group (weeks : List String) (hnd : weeks.Nodup)
    (G : WeekGroup) (hG : G ∈ sweep (mcwSorted weeks)) (x : String)
    (hx : x ∈ G.first :: G.rest) :
    mergeMapGet (merge_close_weeks weeks) x = G.first := by
  unfold mergeMapGet merge_close_weeks
  rw [List.find?_append,
    find?_groupPairs (sweep (mcwSorted weeks)) x (mcw_labels_nodup weeks hnd) G hG hx]
  rfl

end Tennis

namespace Tennis

/-- **C3** (amended).  With distinct labels, the merge of `_merge_close_weeks`
is governed by the sortable key `month*100 + day`, greedily and relative to
each group's first (anchor) label: if `e`'s key `ke` and `l`'s key `kl`
satisfy `ke ≤ kl ≤ ke + 5` and `e` maps to itself (it anchors its group),
then `l` is merged into `e`. -/
theorem c3_amended (weeks : List String) (hnd : weeks.Nodup)
    (e l : String) (he : e ∈ weeks) (hl : l ∈ weeks)
    (ke kl : Nat) (hke : weekKeyOpt e = some ke) (hkl : weekKeyOpt l = some kl)
    (hle : ke ≤ kl) (hclose : kl ≤ ke + 5)
    (hanchor : mergeMapGet (merge_close_weeks weeks) e = e) :
    mergeMapGet (merge_close_weeks weeks) l = e := by
  have hspec := sweep_spec (mcwSorted weeks) (mcwSorted_sorted weeks) (mcwSorted_keys weeks)
  have hes : (ke, e) ∈ mcwSorted weeks := by
    rw [(mcwSorted_perm weeks).mem_iff]
    unfold mcwDated
    exact List.mem_filterMap.mpr ⟨e, he, by rw [hke]; rfl⟩
  have hls : (kl, l) ∈ mcwSorted weeks := by
    rw [(mcwSorted_perm weeks).mem_iff]
    unfold mcwDated
    exact List.mem_filterMap.mpr ⟨l, hl, by rw [hkl]; rfl⟩
  have hefl : e ∈ (sweep (mcwSorted weeks)).flatMap (fun G => G.first :: G.rest) := by
    rw [sweep_flat]
    exact List.mem_map.mpr ⟨(ke, e), hes, rfl⟩
  have hlfl : l ∈ (sweep (mcwSorted weeks)).flatMap (fun G => G.first :: G.rest) := by
    rw [sweep_flat]
    exact List.mem_map.mpr ⟨(kl, l), hls, rfl⟩
  obtain ⟨Ge, hGe, hxe⟩ := List.mem_flatMap.mp hefl
  obtain ⟨Gl, hGl, hxl⟩ := List.mem_flatMap.mp hlfl
  have hlooke := mergeMapGet_group weeks hnd Ge hGe e hxe
  have hGefirst : Ge.first = e := by rw [hlooke] at hanchor; exact hanchor
  have h1 := (hspec.1 Ge hGe).1
  rw [hGefirst, hke] at h1
  have hanchGe : Ge.anchor = ke := (Option.some.inj h1).symm
  obtain ⟨k', hk', hal, hau⟩ := (hspec.1 Gl hGl).2 l hxl
  rw [hkl] at hk'
  have hk2 : k' = kl := (Option.some.inj hk').symm
  have hGeGl : Ge = Gl := by
    rcases pairwise_mem_cases hspec.2 hGe hGl with h | h | h
    · exact h
    · exfalso; omega
    · exfalso; omega
  rw [mergeMapGet_group weeks hnd Gl hGl l hxl, ← hGeGl, hGefirst]

/-- Counterexample to C3 as literally stated: "Jan 30" and "Feb 1" start
within 5 calendar days of each other (2 days apart), yet the merge map sends
each to itself — they are not merged, because the code compares the
`month*100 + day` keys (distance 71), not calendar days. -/
theorem c3_counterexample :
    extract_start_date "Jan 30" = some (1, 30) ∧
    extract_start_date "Feb 1" = some (2, 1) ∧
    dayOfYear (2, 1) - dayOfYear (1, 30) = 2 ∧
    mergeMapGet (merge_close_weeks ["Jan 30", "Feb 1"]) "Jan 30" = "Jan 30" ∧
    mergeMapGet (merge_close_weeks ["Jan 30", "Feb 1"]) "Feb 1" = "Feb 1" ∧
    ("Feb 1" : String) ≠ "Jan 30" := by
  refine ⟨rfl, rfl, rfl, rfl, rfl, by decide⟩

/-- Witness for the amended C3: "Mar 2" anchors its group and "Mar 4"
(key distance 2 ≤ 5) is merged into it. -/
theorem c3_witness :
    mergeMapGet (merge_close_weeks ["Mar 2", "Mar 4"]) "Mar 4" = "Mar 2" :=
  c3_amended ["Mar 2", "Mar 4"] (by decide) "Mar 2" "Mar 4" (by decide) (by decide)
    302 304 (by decide) (by decide) (by decide) (by decide) (by decide)

/-- **C8.**  A week label with no parseable start date passes through
unchanged: `_normalize_week` returns it as is, `_merge_close_weeks` maps it
to itself and never merges any other label into it, and `_week_sort_key`
sorts every parseable label strictly before it. -/
theorem c8_unparseable_week (w : String) (hw : extract_start_date w = none) :
    normalize_week w = w ∧
    (∀ weeks, mergeMapGet (merge_close_weeks weeks) w = w) ∧
    (∀ weeks w', mergeMapGet (merge_close_weeks weeks) w' = w → w' = w) ∧
    (∀ w2 k, weekKeyOpt w2 = some k → sortKeyLt (week_sort_key w2) (week_sort_key w)) := by
  have hwk : weekKeyOpt w = none := by unfold weekKeyOpt; rw [hw]; rfl
  refine ⟨?_, ?_, ?_, ?_⟩
  · unfold normalize_week
    rw [hw]
  · intro weeks
    have hspec := sweep_spec (mcwSorted weeks) (mcwSorted_sorted weeks) (mcwSorted_keys weeks)
    have hgpnone : (List.find? (fun p => p.1 == w)
        ((sweep (mcwSorted weeks)).flatMap
          (fun g => (g.first :: g.rest).map (fun l => (l, g.first))))) = none := by
      rw [List.find?_eq_none]
      intro pr hpr
      obtain ⟨G, hG, hprG⟩ := List.mem_flatMap.mp hpr
      obtain ⟨lab, hlab, hpr2⟩ := List.mem_map.mp hprG
      obtain ⟨k, hk, _, _⟩ := (hspec.1 G hG).2 lab hlab
      subst hpr2
      intro hbeq
      have hlw : lab = w := by simpa using hbeq
      rw [hlw, hwk] at hk
      cases hk
    unfold mergeMapGet merge_close_weeks
    rw [List.find?_append, hgpnone, Option.none_or, find?_map_diag]
    by_cases hmem : w ∈ weeks.filter (fun x => (weekKeyOpt x).isNone)
    · rw [if_pos hmem]
    · rw [if_neg hmem]
  · intro weeks w' hmap
    have hspec := sweep_spec (mcwSorted weeks) (mcwSorted_sorted weeks) (mcwSorted_keys weeks)
    unfold mergeMapGet merge_close_weeks at hmap
    rw [List.find?_append] at hmap
    cases hgp : List.find? (fun p => p.1 == w')
        ((sweep (mcwSorted weeks)).flatMap
          (fun g => (g.first :: g.rest).map (fun l => (l, g.first)))) with
    | some pr =>
      rw [hgp, Option.or_some] at hmap
      simp only [] at hmap
      have hprmem := List.mem_of_find?_eq_some hgp
      obtain ⟨G, hG, hprG⟩ := List.mem_flatMap.mp hprmem
      obtain ⟨lab, hlab, hpr2⟩ := List.mem_map.mp hprG
      have hkf := (hspec.1 G hG).1
      subst hpr2
      have hgf : G.first = w := hmap
      rw [hgf, hwk] at hkf
      cases hkf
    | none =>
      rw [hgp, Option.none_or, find?_map_diag] at hmap
      by_cases hm2 : w' ∈ weeks.filter (fun x => (weekKeyOpt x).isNone)
      · rw [if_pos hm2] at hmap
        simp only [] at hmap
        exact hmap
      · rw [if_neg hm2] at hmap
        simp only [] at hmap
        exact hmap
  · intro w2 k hk2
    have hw2ne : w2 ≠ "" := by
      intro h
      rw [h] at hk2
      simp [weekKeyOpt, extract_start_date] at hk2
    obtain ⟨md, hmd⟩ : ∃ md, extract_start_date w2 = some md := by
      cases h : extract_start_date w2 with
      | none => rw [weekKeyOpt, h] at hk2; cases hk2
      | some md => exact ⟨md, rfl⟩
    obtain ⟨m, d⟩ := md
    have hsk2 : week_sort_key w2 = (0, m * 100 + d) := by
      rw [week_sort_key, if_neg hw2ne, hmd]
    have hfst : (week_sort_key w).1 = 1 ∨ (week_sort_key w).1 = 2 := by
      rw [week_sort_key]
      by_cases hwe : w = ""
      · rw [if_pos hwe]
        exact Or.inr rfl
      · rw [if_neg hwe, hw]
        cases hmw : matchWeekN w.data
        · exact Or.inr rfl
        · exact Or.inl rfl
    rw [hsk2]
    rcases hfst with h | h
    · exact Or.inl (by rw [h]; exact Nat.zero_lt_one)
    · exact Or.inl (by rw [h]; exact Nat.zero_lt_two)

/-- Witness for C8 at the unparseable label "TBD". -/
theorem c8_witness :
    extract_start_date "TBD" = none ∧
    (normalize_week "TBD" = "TBD" ∧
     (∀ weeks, mergeMapGet (merge_close_weeks weeks) "TBD" = "TBD") ∧
     (∀ weeks w', mergeMapGet (merge_close_weeks weeks) w' = "TBD" → w' = "TBD") ∧
     (∀ w2 k, weekKeyOpt w2 = some k → sortKeyLt (week_sort_key w2) (week_sort_key "TBD"))) :=
  ⟨by decide, c8_unparseable_week "TBD" (by decide)⟩

end Tennis

namespace Tennis

/-- Counterexample to C2 as stated: the alias target "ATP Finals" is not a
fixed point of the canonicalizer — a second pass strips its "ATP " prefix. -/
theorem c2_counterexample :
    normalize_tournament_name "Nitto ATP Finals" = "ATP Finals" ∧
    normalize_tournament_name "ATP Finals" = "Finals" ∧
    ("Finals" : String) ≠ "ATP Finals" :=
  ⟨rfl, rfl, by decide⟩

theorem allChunkStep {α : Type} (l : List α) (p : α → Bool) (k m : Nat)
    (h1 : ((l.drop k).take m).all p = true)
    (h2 : (l.drop (k + m)).all p = true) :
    (l.drop k).all p = true := by
  rw [← List.take_append_drop m (l.drop k), List.all_append, h1, List.drop_drop, h2]
  rfl

theorem aliasChunk0 :
    ((TOURNAMENT_ALIASES.drop 0).take 10).all
      (fun p => p.2 == "ATP Finals" || normalize_tournament_name p.2 == p.2) = true := rfl

theorem aliasChunk10 :
    ((TOURNAMENT_ALIASES.drop 10).take 10).all
      (fun p => p.2 == "ATP Finals" || normalize_tournament_name p.2 == p.2) = true := rfl

theorem aliasChunk20 :
    ((TOURNAMENT_ALIASES.drop 20).take 10).all
      (fun p => p.2 == "ATP Finals" || normalize_tournament_name p.2 == p.2) = true := rfl

theorem aliasChunk30 :
    ((TOURNAMENT_ALIASES.drop 30).take 10).all
      (fun p => p.2 == "ATP Finals" || normalize_tournament_name p.2 == p.2) = true := rfl

theorem aliasChunk40 :
    ((TOURNAMENT_ALIASES.drop 40).take 10).all
      (fun p => p.2 == "ATP Finals" || normalize_tournament_name p.2 == p.2) = true := rfl

theorem aliasChunk50 :
    ((TOURNAMENT_ALIASES.drop 50).take 10).all
      (fun p => p.2 == "ATP Finals" || normalize_tournament_name p.2 == p.2) = true := rfl

theorem aliasChunk60 :
    ((TOURNAMENT_ALIASES.drop 60).take 10).all
      (fun p => p.2 == "ATP Finals" || normalize_tournament_name p.2 == p.2) = true := rfl

theorem aliasChunk70 :
    ((TOURNAMENT_ALIASES.drop 70).take 10).all
      (fun p => p.2 == "ATP Finals" || normalize_tournament_name p.2 == p.2) = true := rfl

theorem aliasChunk80 :
    ((TOURNAMENT_ALIASES.drop 80).take 10).all
      (fun p => p.2 == "ATP Finals" || normalize_tournament_name p.2 == p.2) = true := rfl

theorem aliasChunk90 :
    ((TOURNAMENT_ALIASES.drop 90).take 10).all
      (fun p => p.2 == "ATP Finals" || normalize_tournament_name p.2 == p.2) = true := rfl

theorem aliasChunk100 :
    ((TOURNAMENT_ALIASES.drop 100).take 10).all
      (fun p => p.2 == "ATP Finals" || normalize_tournament_name p.2 == p.2) = true := rfl

theorem aliasChunk110 :
    ((TOURNAMENT_ALIASES.drop 110).take 10).all
      (fun p => p.2 == "ATP Finals" || normalize_tournament_name p.2 == p.2) = true := rfl

theorem aliasChunk120 :
    ((TOURNAMENT_ALIASES.drop 120).take 10).all
      (fun p => p.2 == "ATP Finals" || normalize_tournament_name p.2 == p.2) = true := rfl

theorem aliasChunk130 :
    ((TOURNAMENT_ALIASES.drop 130).take 10).all
      (fun p => p.2 == "ATP Finals" || normalize_tournament_name p.2 == p.2) = true := rfl

theorem aliasChunk140 :
    ((TOURNAMENT_ALIASES.drop 140).take 10).all
      (fun p => p.2 == "ATP Finals" || normalize_tournament_name p.2 == p.2) = true := rfl

theorem aliasChunk150 :
    ((TOURNAMENT_ALIASES.drop 150).take 10).all
      (fun p => p.2 == "ATP Finals" || normalize_tournament_name p.2 == p.2) = true := rfl

theorem aliasChunk160 :
    ((TOURNAMENT_ALIASES.drop 160).take 10).all
      (fun p => p.2 == "ATP Finals" || normalize_tournament_name p.2 == p.2) = true := rfl

theorem aliasChunk170 :
    ((TOURNAMENT_ALIASES.drop 170).take 10).all
      (fun p => p.2 == "ATP Finals" || normalize_tournament_name p.2 == p.2) = true := rfl

theorem aliasChunk180 :
    ((TOURNAMENT_ALIASES.drop 180).take 10).all
      (fun p => p.2 == "ATP Finals" || normalize_tournament_name p.2 == p.2) = true := rfl

theorem aliasChunk190 :
    ((TOURNAMENT_ALIASES.drop 190).take 10).all
      (fun p => p.2 == "ATP Finals" || normalize_tournament_name p.2 == p.2) = true := rfl

theorem aliasChunk200 :
    ((TOURNAMENT_ALIASES.drop 200).take 10).all
      (fun p => p.2 == "ATP Finals" || normalize_tournament_name p.2 == p.2) = true := rfl

theorem aliasChunk210 :
    ((TOURNAMENT_ALIASES.drop 210).take 10).all
      (fun p => p.2 == "ATP Finals" || normalize_tournament_name p.2 == p.2) = true := rfl

theorem aliasChunk220 :
    ((TOURNAMENT_ALIASES.drop 220).take 10).all
      (fun p => p.2 == "ATP Finals" || normalize_tournament_name p.2 == p.2) = true := rfl

theorem aliasChunk230 :
    ((TOURNAMENT_ALIASES.drop 230).take 10).all
      (fun p => p.2 == "ATP Finals" || normalize_tournament_name p.2 == p.2) = true := rfl

theorem aliasChunk240 :
    ((TOURNAMENT_ALIASES.drop 240).take 10).all
      (fun p => p.2 == "ATP Finals" || normalize_tournament_name p.2 == p.2) = true := rfl

theorem aliasChunk250 :
    ((TOURNAMENT_ALIASES.drop 250).take 10).all
      (fun p => p.2 == "ATP Finals" || normalize_tournament_name p.2 == p.2) = true := rfl

theorem aliasChunk260 :
    (TOURNAMENT_ALIASES.drop 260).all
      (fun p => p.2 == "ATP Finals" || normalize_tournament_name p.2 == p.2) = true := rfl

theorem aliasValuesFixed :
    (TOURNAMENT_ALIASES.all
      (fun p => p.2 == "ATP Finals" || normalize_tournament_name p.2 == p.2)) = true := by
  have h260 := aliasChunk260
  have h250 := allChunkStep _ _ 250 10 aliasChunk250 h260
  have h240 := allChunkStep _ _ 240 10 aliasChunk240 h250
  have h230 := allChunkStep _ _ 230 10 aliasChunk230 h240
  have h220 := allChunkStep _ _ 220 10 aliasChunk220 h230
  have h210 := allChunkStep _ _ 210 10 aliasChunk210 h220
  have h200 := allChunkStep _ _ 200 10 aliasChunk200 h210
  have h190 := allChunkStep _ _ 190 10 aliasChunk190 h200
  have h180 := allChunkStep _ _ 180 10 aliasChunk180 h190
  have h170 := allChunkStep _ _ 170 10 aliasChunk170 h180
  have h160 := allChunkStep _ _ 160 10 aliasChunk160 h170
  have h150 := allChunkStep _ _ 150 10 aliasChunk150 h160
  have h140 := allChunkStep _ _ 140 10 aliasChunk140 h150
  have h130 := allChunkStep _ _ 130 10 aliasChunk130 h140
  have h120 := allChunkStep _ _ 120 10 aliasChunk120 h130
  have h110 := allChunkStep _ _ 110 10 aliasChunk110 h120
  have h100 := allChunkStep _ _ 100 10 aliasChunk100 h110
  have h90 := allChunkStep _ _ 90 10 aliasChunk90 h100
  have h80 := allChunkStep _ _ 80 10 aliasChunk80 h90
  have h70 := allChunkStep _ _ 70 10 aliasChunk70 h80
  have h60 := allChunkStep _ _ 60 10 aliasChunk60 h70
  have h50 := allChunkStep _ _ 50 10 aliasChunk50 h60
  have h40 := allChunkStep _ _ 40 10 aliasChunk40 h50
  have h30 := allChunkStep _ _ 30 10 aliasChunk30 h40
  have h20 := allChunkStep _ _ 20 10 aliasChunk20 h30
  have h10 := allChunkStep _ _ 10 10 aliasChunk10 h20
  have h0 := allChunkStep _ _ 0 10 aliasChunk0 h10
  rw [List.drop_zero] at h0
  exact h0

/-- **C2** (amended).  Canonicalization is idempotent at every input whose
canonical form is an alias target other than "ATP Finals": every other
alias target is a fixed point of `_normalize_tournament_name`. -/
theorem c2_amended (x v : String)
    (hx : normalize_tournament_name x = v)
    (hv : v ∈ TOURNAMENT_ALIASES.map Prod.snd)
    (hne : v ≠ "ATP Finals") :
    normalize_tournament_name (normalize_tournament_name x)
      = normalize_tournament_name x := by
  rw [hx]
  obtain ⟨p, hp, hpv⟩ := List.mem_map.mp hv
  have hall := List.all_eq_true.mp aliasValuesFixed p hp
  rw [Bool.or_eq_true, beq_iff_eq, beq_iff_eq, hpv] at hall
  rcases hall with h | h
  · exact absurd h hne
  · exact h

/-- Witness for the amended C2 at "Qatar ExxonMobil Open", whose canonical
form is the alias target "Doha". -/
theorem c2_witness :
    normalize_tournament_name "Qatar ExxonMobil Open" = "Doha" ∧
    "Doha" ∈ TOURNAMENT_ALIASES.map Prod.snd ∧
    ("Doha" : String) ≠ "ATP Finals" ∧
    normalize_tournament_name (normalize_tournament_name "Qatar ExxonMobil Open")
      = normalize_tournament_name "Qatar ExxonMobil Open" :=
  ⟨rfl, by decide, by decide,
    c2_amended "Qatar ExxonMobil Open" "Doha" rfl (by decide) (by decide)⟩

end Tennis
